import Mathlib

/-!
Type-erased cursors (`it::iterator`), range views (`it::iterable_view`) and type-erased
locations (`it::any_reference`).

A shallow embedding of `iterable.hpp`, `iterable_view.hpp` and `reference.hpp`.

* An element address (`T&`, `T*`) is a natural number `Loc`.
* The free store is explicit: `Heap` maps the address of every allocation made by
  `std::make_unique` to the implementation object living there.
* A `std::unique_ptr<it_concept>` is an `Option Addr` (`none` is `nullptr`).
* A C++ exception is `Err.logic_error`; behaviour the language leaves undefined
  (dereferencing a null `unique_ptr`, reading the inactive member of the union,
  a mistyped `static_cast`) is `Err.undefined_behaviour`.
* The concrete cursor types `It` that instantiate the templates are described by a
  `CursorTypes` (their representations) and a `CursorOps` (their operators and sizes).
-/

namespace it

/-- Address of an element: what a `reference` (`T&`) designates and a `pointer` (`T*`) holds. -/
abbrev Loc := Nat

/-- Address of an allocation on the free store. -/
abbrev Addr := Nat

/-- Abnormal outcomes of an operation. -/
inductive Err where
  /-- A thrown `std::logic_error` with its message. -/
  | logic_error (what : String)
  /-- The operation has undefined behaviour. -/
  | undefined_behaviour
  deriving DecidableEq, Repr

/-- The concrete cursor types `It` the constructor template accepts for element type `T`:
the raw pointer `T*` (`std::is_pointer_v<It>`), or one of the class types `k`. -/
inductive ItType (K : Type) where
  | pointer
  | class_type (k : K)
  deriving DecidableEq, Repr

/-- Representations of the class-type cursors: one data type per kind. -/
structure CursorTypes where
  /-- Names of the class types. -/
  Kind : Type
  /-- Comparison of class types, as `typeid` provides it. -/
  kindEq : DecidableEq Kind
  /-- The values of class type `k`. -/
  Data : Kind → Type

instance (S : CursorTypes) : DecidableEq S.Kind := S.kindEq

/-- The values of the concrete cursor type `It`; a raw pointer is the address it holds. -/
@[reducible] def CursorTypes.DataOf (S : CursorTypes) : ItType S.Kind → Type
  | .pointer => Loc
  | .class_type k => S.Data k

/-- Operators of the class-type cursors, and the sizes the storage choice depends on. -/
structure CursorOps (S : CursorTypes) where
  /-- `*data` : the element the cursor designates. -/
  star : (k : S.Kind) → S.Data k → Loc
  /-- `data.operator->()` when the class declares it (`has_arrow_operator<It>`). -/
  arrow : (k : S.Kind) → Option (S.Data k → Loc)
  /-- `++data`. -/
  incr : (k : S.Kind) → S.Data k → S.Data k
  /-- `data == other.data`. -/
  eq : (k : S.Kind) → S.Data k → S.Data k → Bool
  /-- `sizeof(it_model<It>)`. -/
  sizeof_model : ItType S.Kind → Nat
  /-- `sizeof(aligned_storage)`, the size of the inline buffer. -/
  sizeof_aligned_storage : Nat

variable {S : CursorTypes}

/-- `*data` for a concrete cursor of type `It`. -/
def CursorOps.deref_data (ops : CursorOps S) : (It : ItType S.Kind) → S.DataOf It → Loc
  | .pointer, p => p
  | .class_type k, d => ops.star k d

/-- `++data` for a concrete cursor of type `It`. -/
def CursorOps.incr_data (ops : CursorOps S) : (It : ItType S.Kind) → S.DataOf It → S.DataOf It
  | .pointer, (p : Nat) => (p + 1 : Nat)
  | .class_type k, d => ops.incr k d

/-- `data == other.data` for two concrete cursors of type `It`. -/
def CursorOps.eq_data (ops : CursorOps S) : (It : ItType S.Kind) → S.DataOf It → S.DataOf It → Bool
  | .pointer, (p : Nat), (q : Nat) => decide (p = q)
  | .class_type k, d, e => ops.eq k d e

/-- The `operator->` a class type declares, if any, returns the address of `*data` at the
value `data`, as the requirements on input iterators demand; nothing is asked of a raw
pointer or of a class without `operator->`. -/
def CursorOps.arrow_agrees (ops : CursorOps S) : (It : ItType S.Kind) → S.DataOf It → Prop
  | .pointer, _ => True
  | .class_type k, d => ∀ f, ops.arrow k = some f → f d = ops.star k d

/-- The same operators with the class types' `==` replaced by `f`. -/
def CursorOps.with_eq (ops : CursorOps S) (f : (k : S.Kind) → S.Data k → S.Data k → Bool) :
    CursorOps S :=
  { ops with eq := f }

/-- The implementation objects behind `it_concept`: `it_model<It>` holding `data`,
or the sentinel `empty_model`. -/
inductive it_concept (S : CursorTypes) where
  | it_model (It : ItType S.Kind) (data : S.DataOf It)
  | empty_model

namespace it_concept

/-- The dynamic type, `typeid(*this)`: `some It` for `it_model<It>`, `none` for `empty_model`. -/
def typeid : it_concept S → Option (ItType S.Kind)
  | it_model It _ => some It
  | empty_model => none

/-- `it_model::operator*` and `empty_model::operator*`. -/
def star (ops : CursorOps S) : it_concept S → Except Err Loc
  | it_model It data => pure (ops.deref_data It data)
  | empty_model => throw (Err.logic_error "empty_model operator*()")

/-- `it_model::operator->` and `empty_model::operator->`. -/
def arrow (ops : CursorOps S) : it_concept S → Except Err Loc
  | it_model .pointer data => pure data
  | it_model (.class_type k) data =>
    match ops.arrow k with
    | some f => pure (f data)
    | none => pure (ops.star k data)
  | empty_model => throw (Err.logic_error "empty_model operator->()")

/-- `it_model::operator++` and `empty_model::operator++`. -/
def incr (ops : CursorOps S) : it_concept S → it_concept S
  | it_model It data => it_model It (ops.incr_data It data)
  | empty_model => empty_model

/-- The private virtual `equal`. In `it_model` the argument is cast to `const it_model&`
without a check, which is undefined when `other` has another dynamic type. -/
def equal (ops : CursorOps S) : it_concept S → it_concept S → Except Err Bool
  | it_model It data, it_model It2 data2 =>
    if h : It2 = It then pure (ops.eq_data It data (h ▸ data2))
    else throw Err.undefined_behaviour
  | it_model _ _, empty_model => throw Err.undefined_behaviour
  | empty_model, _ => pure true

/-- `it_concept::operator==`: `typeid(*this) == typeid(other) && equal(other)`. -/
def operator_eq (ops : CursorOps S) (self other : it_concept S) : Except Err Bool :=
  if self.typeid = other.typeid then self.equal ops other else pure false

/-- `it_concept::operator!=`. -/
def operator_ne (ops : CursorOps S) (self other : it_concept S) : Except Err Bool := do
  let r ← self.operator_eq ops other
  pure (!r)

/-- The copy made by `clone` and `clone_static`: a copy-constructed `*this`. -/
def copy (self : it_concept S) : it_concept S := self

end it_concept

/-- The free store: the allocation with address `p` is `cells[p]`, `none` once deleted. -/
structure Heap (S : CursorTypes) where
  cells : List (Option (it_concept S))

namespace Heap

/-- The object at address `p`, if `p` is a live allocation. -/
def load (h : Heap S) (p : Addr) : Option (it_concept S) :=
  (h.cells[p]?).join

/-- `std::make_unique`: a fresh allocation holding `obj`. -/
def make_unique (h : Heap S) (obj : it_concept S) : Heap S × Addr :=
  (⟨h.cells ++ [some obj]⟩, h.cells.length)

/-- Overwrite the object at `p`. -/
def store (h : Heap S) (p : Addr) (obj : it_concept S) : Heap S :=
  ⟨h.cells.set p (some obj)⟩

/-- `delete p`; deleting what is not a live allocation is undefined. -/
def delete (h : Heap S) (p : Addr) : Except Err (Heap S) :=
  match h.load p with
  | some _ => pure ⟨h.cells.set p none⟩
  | none => throw Err.undefined_behaviour

/-- Number of allocations made so far. -/
def allocations (h : Heap S) : Nat := h.cells.length

/-- Number of allocations not yet deleted. -/
def live_count (h : Heap S) : Nat := (h.cells.filter Option.isSome).length

end Heap

/-- The anonymous union of `iterator`: either `_stack` holds an implementation object
in place, or `_heap` is the active member. -/
inductive Storage (S : CursorTypes) where
  | _stack (obj : it_concept S)
  | _heap (p : Option Addr)

/-- The members of `iterator<T>`. -/
structure iterator (S : CursorTypes) where
  _on_stack : Bool
  storage : Storage S

/-- `goes_to_stack<U>::value` for a `U` of the given size: `sizeof(U) <= sizeof(aligned_storage)`. -/
def goes_to_stack (ops : CursorOps S) (sizeof_U : Nat) : Bool :=
  decide (sizeof_U ≤ ops.sizeof_aligned_storage)

/-- `goes_to_heap<U>::value`. -/
def goes_to_heap (ops : CursorOps S) (sizeof_U : Nat) : Bool :=
  !goes_to_stack ops sizeof_U

namespace iterator

/-- The two constructor templates `iterator(It iter)`: the first is selected when
`stack_iterator<It>` holds, the second when `heap_iterator<It>` holds. -/
def ctor (ops : CursorOps S) (h : Heap S) (It : ItType S.Kind) (iter : S.DataOf It) :
    Heap S × iterator S :=
  if goes_to_stack ops (ops.sizeof_model It) then
    (h, { _on_stack := true, storage := ._stack (.it_model It iter) })
  else
    let r := h.make_unique (.it_model It iter)
    (r.1, { _on_stack := false, storage := ._heap (some r.2) })

/-- `stack_concept()`: the object in the inline buffer. Reading `_stack` while `_heap`
is the active member of the union is undefined. -/
def stack_concept (c : iterator S) : Except Err (it_concept S) :=
  match c.storage with
  | ._stack obj => pure obj
  | ._heap _ => throw Err.undefined_behaviour

/-- The object `*_heap`: undefined when `_heap` is not the active member, is null,
or does not point to a live allocation. -/
def heap_concept (h : Heap S) (c : iterator S) : Except Err (Addr × it_concept S) :=
  match c.storage with
  | ._heap (some p) =>
    match h.load p with
    | some obj => pure (p, obj)
    | none => throw Err.undefined_behaviour
  | ._heap none => throw Err.undefined_behaviour
  | ._stack _ => throw Err.undefined_behaviour

/-- `get_concept()`: `_on_stack ? stack_concept() : *_heap`. -/
def get_concept (h : Heap S) (c : iterator S) : Except Err (it_concept S) :=
  if c._on_stack then c.stack_concept
  else do
    let r ← heap_concept h c
    pure r.2

/-- `transfer(const iterator& other)`, run on an object whose flag is `on_stack`:
yields the new free store and the member of the union it initialises. -/
def transfer_copy (h : Heap S) (on_stack : Bool) (other : iterator S) :
    Except Err (Heap S × Storage S) :=
  if on_stack then do
    let obj ← other.stack_concept
    pure (h, ._stack obj.copy)
  else do
    let r ← heap_concept h other
    let a := h.make_unique r.2.copy
    pure (a.1, ._heap (some a.2))

/-- `transfer(iterator&& other)`, run on an object whose flag is `on_stack`: yields the
member of the union it initialises and what is left in `other`. The free store is not touched. -/
def transfer_move (on_stack : Bool) (other : iterator S) :
    Except Err (Storage S × Storage S) :=
  if on_stack then
    match other.storage with
    | ._stack obj => pure (._stack obj, ._stack .empty_model)
    | ._heap _ => throw Err.undefined_behaviour
  else
    match other.storage with
    | ._heap p => pure (._heap p, ._heap none)
    | ._stack _ => throw Err.undefined_behaviour

/-- `iterator(const iterator& other)`. -/
def copy_ctor (h : Heap S) (other : iterator S) : Except Err (Heap S × iterator S) := do
  let r ← transfer_copy h other._on_stack other
  pure (r.1, { _on_stack := other._on_stack, storage := r.2 })

/-- `iterator(iterator&& other)`: yields the new object and `other` after the move. -/
def move_ctor (other : iterator S) : Except Err (iterator S × iterator S) := do
  let r ← transfer_move other._on_stack other
  pure ({ _on_stack := other._on_stack, storage := r.1 }, { other with storage := r.2 })

/-- `~iterator()`. -/
def dtor (h : Heap S) (c : iterator S) : Except Err (Heap S) :=
  if c._on_stack then do
    let _ ← c.stack_concept
    pure h
  else
    match c.storage with
    | ._heap (some p) => h.delete p
    | ._heap none => pure h
    | ._stack _ => throw Err.undefined_behaviour

/-- The guarded block of `operator=(const iterator& other)`, for `this != &other`. -/
def copy_assign (h : Heap S) (self other : iterator S) : Except Err (Heap S × iterator S) := do
  let h1 ← dtor h self
  let r ← transfer_copy h1 other._on_stack other
  pure (r.1, { _on_stack := other._on_stack, storage := r.2 })

/-- The guarded block of `operator=(iterator&& other)`, for `this != &other`: yields the
free store, `*this` and `other` after the assignment. -/
def move_assign (h : Heap S) (self other : iterator S) :
    Except Err (Heap S × iterator S × iterator S) := do
  let h1 ← dtor h self
  let r ← transfer_move other._on_stack other
  pure (h1, { _on_stack := other._on_stack, storage := r.1 }, { other with storage := r.2 })

/-- `operator*()`. -/
def operator_star (ops : CursorOps S) (h : Heap S) (c : iterator S) : Except Err Loc := do
  let obj ← get_concept h c
  obj.star ops

/-- `operator->()`. -/
def operator_arrow (ops : CursorOps S) (h : Heap S) (c : iterator S) : Except Err Loc := do
  let obj ← get_concept h c
  obj.arrow ops

/-- `operator++()`: `++get_concept()` advances the object where it lives. -/
def operator_inc (ops : CursorOps S) (h : Heap S) (c : iterator S) :
    Except Err (Heap S × iterator S) :=
  if c._on_stack then do
    let obj ← c.stack_concept
    pure (h, { c with storage := ._stack (obj.incr ops) })
  else do
    let r ← heap_concept h c
    pure (h.store r.1 (r.2.incr ops), c)

/-- `operator++(int)`: yields the free store, `*this` after the call and the returned
snapshot `current` (returned in place). -/
def operator_post_inc (ops : CursorOps S) (h : Heap S) (c : iterator S) :
    Except Err (Heap S × iterator S × iterator S) := do
  let cur ← copy_ctor h c
  let adv ← operator_inc ops cur.1 c
  pure (adv.1, adv.2, cur.2)

/-- The friend `operator==`. -/
def operator_eq (ops : CursorOps S) (h : Heap S) (lhs rhs : iterator S) : Except Err Bool := do
  let l ← get_concept h lhs
  let r ← get_concept h rhs
  l.operator_eq ops r

/-- The friend `operator!=`. -/
def operator_ne (ops : CursorOps S) (h : Heap S) (lhs rhs : iterator S) : Except Err Bool := do
  let r ← operator_eq ops h lhs rhs
  pure (!r)

/-- `operator++()` applied `n` times in a row. -/
def advance (ops : CursorOps S) : Nat → Heap S → iterator S → Except Err (Heap S × iterator S)
  | 0, h, c => pure (h, c)
  | n + 1, h, c => do
    let r ← operator_inc ops h c
    advance ops n r.1 r.2

/-- The flag names the active member of the union, and an owning `_heap` points to a
live allocation: the state every constructor and assignment establishes. -/
def valid (h : Heap S) (c : iterator S) : Prop :=
  match c._on_stack, c.storage with
  | true, ._stack _ => True
  | false, ._heap none => True
  | false, ._heap (some p) => (h.load p).isSome = true
  | _, _ => False

/-- The cursors `a` and `b` do not own the same allocation. -/
def separate (a b : iterator S) : Prop :=
  ∀ p, a.storage = ._heap (some p) → b.storage ≠ ._heap (some p)

/-- The flag agrees with the member of the union that was initialised. -/
def flag_agrees (c : iterator S) : Bool :=
  match c._on_stack, c.storage with
  | true, ._stack _ => true
  | false, ._heap _ => true
  | _, _ => false

end iterator

/-- Iterator objects at their addresses, with the free store: the setting in which
`this != &other` is decided. -/
structure Machine (S : CursorTypes) where
  heap : Heap S
  objs : Nat → iterator S

namespace Machine

/-- `iterator& operator=(const iterator& other)` on the objects at `this` and `other`. -/
def operator_assign_copy (m : Machine S) (this other : Nat) : Except Err (Machine S) :=
  if this ≠ other then do
    let r ← iterator.copy_assign m.heap (m.objs this) (m.objs other)
    pure { heap := r.1, objs := Function.update m.objs this r.2 }
  else pure m

/-- `iterator& operator=(iterator&& other)` on the objects at `this` and `other`. -/
def operator_assign_move (m : Machine S) (this other : Nat) : Except Err (Machine S) :=
  if this ≠ other then do
    let r ← iterator.move_assign m.heap (m.objs this) (m.objs other)
    pure { heap := r.1,
           objs := Function.update (Function.update m.objs other r.2.2) this r.2.1 }
  else pure m

end Machine

/-! The class `iterable_view`. -/


/-- The members of `iterable_view<ValueType>`. -/
structure iterable_view (S : CursorTypes) where
  _first : iterator S
  _last : iterator S

namespace iterable_view

/-- `iterable_view(It first, It last)`: `_first(first), _last(last)`. -/
def ctor (ops : CursorOps S) (h : Heap S) (It : ItType S.Kind) (first last : S.DataOf It) :
    Heap S × iterable_view S :=
  let a := iterator.ctor ops h It first
  let b := iterator.ctor ops a.1 It last
  (b.1, { _first := a.2, _last := b.2 })

/-- `begin()`. -/
def begin (v : iterable_view S) : iterator S := v._first

/-- `end()`. -/
def end_ (v : iterable_view S) : iterator S := v._last

end iterable_view

/-- Modelled from the spec: the loop of a consumer of the view, which is not part of the
sources: while `it != last`, dereference `it`, record the element designated, advance `it`.
`fuel` bounds the number of tests of the loop condition; `none` means it ran out.
The result is the free store, the cursor at exit and the elements visited, in order. -/
def range_loop (ops : CursorOps S) :
    Nat → Heap S → iterator S → iterator S → List Loc →
      Option (Except Err (Heap S × iterator S × List Loc))
  | 0, _, _, _, _ => none
  | fuel + 1, h, cur, last, seen =>
    match iterator.operator_ne ops h cur last with
    | .error e => some (.error e)
    | .ok false => some (.ok (h, cur, seen))
    | .ok true =>
      match iterator.operator_star ops h cur with
      | .error e => some (.error e)
      | .ok x =>
        match iterator.operator_inc ops h cur with
        | .error e => some (.error e)
        | .ok r => range_loop ops fuel r.1 r.2 last (seen ++ [x])

/-- Modelled from the spec: iterating a view, which no source file does: copy `begin()`,
then loop against `end()`. -/
def iterate (ops : CursorOps S) (fuel : Nat) (h : Heap S) (v : iterable_view S) :
    Option (Except Err (Heap S × iterator S × List Loc)) :=
  match iterator.copy_ctor h v.begin with
  | .error e => some (.error e)
  | .ok r => range_loop ops fuel r.1 r.2 v.end_ []

/-! Element memory. -/

/-- The objects of type `T` in memory, by address. -/
abbrev Mem (T : Type) := Loc → T

/-- The array `arr` occupies the addresses `base, base + 1, ...` of `m`. -/
def array_at {T : Type} (m : Mem T) (base : Loc) (arr : List T) : Prop :=
  ∀ i (hi : i < arr.length), m (base + i) = arr.get ⟨i, hi⟩

/-! The class `any_reference`. -/

/-- What a proxy type `P` provides for the value type `T`. -/
structure ProxyOps (T P : Type) where
  /-- The conversion `value_type(data)`. -/
  to_value : P → T
  /-- The assignment `data = val` from a `value_type`. -/
  assign : P → T → P

/-- The implementation objects behind `ref_concept`: `ref_model<Ref>`, whose
`std::reference_wrapper` designates the object at `data`, or `ref_proxy<Ref>` with the
proxy object `data` and the working slot `value`. -/
inductive ref_concept (T P : Type) where
  | ref_model (data : Loc)
  | ref_proxy (data : P) (value : Option T)

/-- What a returned `const value_type&` designates: an object in memory, or the
working slot of the proxy implementation. -/
inductive cref where
  | object (l : Loc)
  | working_slot
  deriving DecidableEq, Repr

namespace ref_concept

variable {T P : Type}

/-- `clone()`: `std::make_unique<...>(*this)`, a copy of all members. -/
def clone : ref_concept T P → ref_concept T P
  | ref_model data => ref_model data
  | ref_proxy data value => ref_proxy data value

/-- `get()`: the object after the call (the working slot is `mutable`) and the
reference returned. -/
def get (px : ProxyOps T P) : ref_concept T P → ref_concept T P × cref
  | ref_model data => (ref_model data, .object data)
  | ref_proxy data _ => (ref_proxy data (some (px.to_value data)), .working_slot)

/-- `set(val)`: memory and the object after the call. -/
def set (px : ProxyOps T P) (m : Mem T) : ref_concept T P → T → Mem T × ref_concept T P
  | ref_model data, val => (Function.update m data val, ref_model data)
  | ref_proxy data value, val => (m, ref_proxy (px.assign data val) value)

end ref_concept

/-- The member of `any_reference<ValueType>`: the implementation object `_self` owns. -/
structure any_reference (T P : Type) where
  _self : ref_concept T P

namespace any_reference

variable {T P : Type}

/-- `any_reference(Ref& ref)` for `is_same_ref<Ref>`: binds the object at `ref`. -/
def ctor_ref (ref : Loc) : any_reference T P :=
  { _self := .ref_model ref }

/-- `any_reference(Ref ref)` for `is_proxy_ref<Ref>`: owns the proxy, working slot empty. -/
def ctor_proxy (ref : P) : any_reference T P :=
  { _self := .ref_proxy ref none }

/-- `operator=(const value_type& val)` and `operator=(value_type&& val)`. -/
def operator_assign (px : ProxyOps T P) (m : Mem T) (r : any_reference T P) (val : T) :
    Mem T × any_reference T P :=
  let s := r._self.set px m val
  (s.1, { _self := s.2 })

/-- `get()`: the location after the call and the reference returned. -/
def get (px : ProxyOps T P) (r : any_reference T P) : any_reference T P × cref :=
  let g := r._self.get px
  ({ _self := g.1 }, g.2)

/-- The value a returned reference designates, read in memory `m` while the location is `r`. -/
def read (m : Mem T) (r : any_reference T P) : cref → Option T
  | .object l => some (m l)
  | .working_slot =>
    match r._self with
    | .ref_proxy _ value => value
    | .ref_model _ => none

/-- The value obtained by calling `get()` and reading the result at once. -/
def get_value (px : ProxyOps T P) (m : Mem T) (r : any_reference T P) : Option T :=
  let g := r.get px
  read m g.1 g.2

end any_reference

/-! A sample family of concrete cursor types. -/

/-- Two class-type cursors: `wrapped` holds one address and declares `operator->`;
`strided` holds an address and a stride and declares no `operator->`. -/
inductive DemoKind where
  | wrapped
  | strided
  deriving DecidableEq, Repr

/-- Representations of the sample cursors. -/
@[reducible] def Demo : CursorTypes where
  Kind := DemoKind
  kindEq := inferInstance
  Data := fun k => match k with
    | .wrapped => Loc
    | .strided => Loc × Nat

/-- Operators of the sample cursors, with the sizes of a 64-bit platform:
`it_model<T*>` and `it_model<wrapped>` take 16 bytes, `it_model<strided>` takes 24. -/
def demo_ops : CursorOps Demo where
  star := fun k => match k with
    | .wrapped => fun d => d
    | .strided => fun d => d.1
  arrow := fun k => match k with
    | .wrapped => some (fun d => d)
    | .strided => none
  incr := fun k => match k with
    | .wrapped => fun d => (d + 1 : Nat)
    | .strided => fun d => (d.1 + d.2, d.2)
  eq := fun k => match k with
    | .wrapped => fun d e => decide ((d : Nat) = e)
    | .strided => fun d e => decide (d.1 = e.1) && decide (d.2 = e.2)
  sizeof_model := fun It => match It with
    | .pointer => 16
    | .class_type .wrapped => 16
    | .class_type .strided => 24
  sizeof_aligned_storage := 16

/-- The empty free store. -/
def demo_heap : Heap Demo := ⟨[]⟩

/-- An inline cursor built from the raw pointer `100`. -/
def demo_inline : iterator Demo :=
  (iterator.ctor demo_ops demo_heap .pointer (100 : Nat)).2

/-- An owned cursor built from a `strided` cursor at `100` with stride `2`, with the
free store holding its allocation. -/
def demo_owned : Heap Demo × iterator Demo :=
  iterator.ctor demo_ops demo_heap (.class_type .strided) ((100 : Nat), (2 : Nat))

/-- Three iterator objects: `demo_inline` at address 0, the owned cursor of `demo_owned`
at address 1, and everywhere else an owned cursor that has been moved from. -/
def demo_machine : Machine Demo where
  heap := demo_owned.1
  objs := fun i => match i with
    | 0 => demo_inline
    | 1 => demo_owned.2
    | _ => { _on_stack := false, storage := ._heap none }

/-- An inline cursor built from a `wrapped` cursor at `100`. -/
def demo_wrapped : iterator Demo :=
  (iterator.ctor demo_ops demo_heap (.class_type .wrapped) (100 : Nat)).2

/-- The memory in which the array `[10, 20, 30]` occupies the addresses `100, 101, 102`. -/
def demo_mem : Mem Nat := fun l => [10, 20, 30].getD (l - 100) 0

/-- A proxy for `Nat` whose conversion doubles the value it stores, and which stores the
value assigned to it. -/
def demo_proxy : ProxyOps Nat Nat where
  to_value := fun p => 2 * p
  assign := fun _ v => v

/-! Theorems. -/

section heap_lemmas

theorem Heap.load_lt (h : Heap S) (o : it_concept S) (p : Addr)
    (hp : h.load p = some o) : p < h.cells.length := by
  by_contra hge
  simp [Heap.load, List.getElem?_eq_none (not_lt.mp hge)] at hp

theorem Heap.load_make_unique_new (h : Heap S) (x : it_concept S) :
    (h.make_unique x).1.load (h.make_unique x).2 = some x := by
  simp [Heap.make_unique, Heap.load]

theorem Heap.load_make_unique_old (h : Heap S) (x o : it_concept S) (p : Addr)
    (hp : h.load p = some o) : (h.make_unique x).1.load p = some o := by
  have hlt := Heap.load_lt h o p hp
  simp [Heap.make_unique, Heap.load, List.getElem?_append_left hlt] at hp ⊢
  exact hp

theorem Heap.load_store_same (h : Heap S) (x o : it_concept S) (p : Addr)
    (hp : h.load p = some o) : (h.store p x).load p = some x := by
  have hlt := Heap.load_lt h o p hp
  simp [Heap.store, Heap.load, hlt]

theorem Heap.load_store_ne (h : Heap S) (x : it_concept S) (p q : Addr) (hne : p ≠ q) :
    (h.store p x).load q = h.load q := by
  simp [Heap.store, Heap.load, List.getElem?_set_ne hne]

theorem Heap.delete_ok (h : Heap S) (o : it_concept S) (p : Addr) (hp : h.load p = some o) :
    h.delete p = .ok ⟨h.cells.set p none⟩ := by
  simp [Heap.delete, hp, pure, Except.pure]

theorem Heap.load_delete_ne (h : Heap S) (p q : Addr) (hne : p ≠ q) :
    (Heap.mk (h.cells.set p none)).load q = h.load q := by
  simp [Heap.load, List.getElem?_set_ne hne]

theorem Heap.load_delete_same (h : Heap S) (p : Addr) :
    (Heap.mk (h.cells.set p none)).load p = none := by
  by_cases hlt : p < h.cells.length
  · simp [Heap.load, hlt]
  · have hlen : (h.cells.set p none).length ≤ p := by simpa using not_lt.mp hlt
    simp [Heap.load, List.getElem?_eq_none hlen]

end heap_lemmas

section concept_lemmas

/-- `get_concept` succeeds exactly in the two well-formed live states. -/
theorem iterator.get_concept_ok_iff (h : Heap S) (c : iterator S) (obj : it_concept S) :
    c.get_concept h = .ok obj ↔
      (c._on_stack = true ∧ c.storage = ._stack obj) ∨
      (c._on_stack = false ∧ ∃ p, c.storage = ._heap (some p) ∧ h.load p = some obj) := by
  obtain ⟨f, st⟩ := c
  cases f <;> cases st with
  | _stack o =>
    simp [iterator.get_concept, iterator.stack_concept, iterator.heap_concept, bind, Except.bind,
      pure, Except.pure, throw, throwThe, MonadExceptOf.throw]
  | _heap p =>
    cases p with
    | none =>
      simp [iterator.get_concept, iterator.stack_concept, iterator.heap_concept, bind,
        Except.bind, pure, Except.pure, throw, throwThe, MonadExceptOf.throw]
    | some p =>
      cases hl : h.load p <;>
      simp [iterator.get_concept, iterator.stack_concept, iterator.heap_concept, bind,
        Except.bind, pure, Except.pure, throw, throwThe, MonadExceptOf.throw, hl]

end concept_lemmas

section equality

variable (ops : CursorOps S)

theorem it_concept_eq_same (It : ItType S.Kind) (d e : S.DataOf It) :
    it_concept.operator_eq ops (.it_model It d) (.it_model It e) = .ok (ops.eq_data It d e) := by
  simp [it_concept.operator_eq, it_concept.typeid, it_concept.equal, pure, Except.pure]

theorem it_concept_eq_diff (Ia Ib : ItType S.Kind) (da : S.DataOf Ia) (db : S.DataOf Ib)
    (hne : Ia ≠ Ib) :
    it_concept.operator_eq ops (.it_model Ia da) (.it_model Ib db) = .ok false := by
  simp [it_concept.operator_eq, it_concept.typeid, hne, pure, Except.pure]

end equality

/-- C1: for cursors `a` and `b` that hold live implementation objects `it_model<Ia>(da)` and
`it_model<Ib>(db)`, `a == b` returns normally, and returns true exactly when `Ia` and `Ib`
are the same type and `da == db` holds for that type's own `==`. When the types differ
the result is false whatever the class types' `==` is (it is not consulted), and the unguarded
`equal` would have been undefined there. -/
theorem C1_equality_is_type_and_value (ops : CursorOps S) (h : Heap S) (a b : iterator S)
    (Ia Ib : ItType S.Kind) (da : S.DataOf Ia) (db : S.DataOf Ib)
    (ha : a.get_concept h = .ok (.it_model Ia da))
    (hb : b.get_concept h = .ok (.it_model Ib db)) :
    (∃ r, iterator.operator_eq ops h a b = .ok r ∧
      (r = true ↔ ∃ e : Ib = Ia, ops.eq_data Ia da (e ▸ db) = true)) ∧
    (Ia ≠ Ib →
      (∀ f, iterator.operator_eq (ops.with_eq f) h a b = .ok false) ∧
      it_concept.equal ops (.it_model Ia da) (.it_model Ib db) = .error .undefined_behaviour) := by
  refine ⟨?_, ?_⟩
  · by_cases hI : Ib = Ia
    · subst hI
      refine ⟨ops.eq_data Ib da db, ?_, ?_⟩
      · simp [iterator.operator_eq, ha, hb, bind, Except.bind, it_concept_eq_same]
      · constructor
        · intro hr; exact ⟨rfl, hr⟩
        · rintro ⟨_, hr⟩; exact hr
    · refine ⟨false, ?_, ?_⟩
      · simp [iterator.operator_eq, ha, hb, bind, Except.bind,
          it_concept_eq_diff ops Ia Ib da db (fun e => hI e.symm)]
      · constructor
        · intro hr; cases hr
        · rintro ⟨e, _⟩; exact absurd e hI
  · intro hne
    refine ⟨fun f => ?_, ?_⟩
    · simp [iterator.operator_eq, ha, hb, bind, Except.bind,
        it_concept_eq_diff (ops.with_eq f) Ia Ib da db hne]
    · have : ¬ Ib = Ia := fun e => hne e.symm
      simp [it_concept.equal, this, throw, throwThe, MonadExceptOf.throw]

/-- C1 at two inline pointer cursors to the same element and their comparison. -/
theorem C1_equality_is_type_and_value_witness :
    (∃ r, iterator.operator_eq demo_ops demo_heap
        (iterator.ctor demo_ops demo_heap .pointer (7 : Nat)).2
        (iterator.ctor demo_ops demo_heap (.class_type .wrapped) (7 : Nat)).2 = .ok r ∧
      (r = true ↔ ∃ e : ItType.class_type DemoKind.wrapped = ItType.pointer,
        demo_ops.eq_data .pointer (7 : Nat) (e ▸ (7 : Nat)) = true)) ∧
    (ItType.pointer ≠ ItType.class_type DemoKind.wrapped →
      (∀ f, iterator.operator_eq (demo_ops.with_eq f) demo_heap
        (iterator.ctor demo_ops demo_heap .pointer (7 : Nat)).2
        (iterator.ctor demo_ops demo_heap (.class_type .wrapped) (7 : Nat)).2 = .ok false) ∧
      it_concept.equal demo_ops (.it_model .pointer (7 : Nat))
        (.it_model (.class_type .wrapped) (7 : Nat)) = .error .undefined_behaviour) :=
  C1_equality_is_type_and_value demo_ops demo_heap _ _ .pointer (.class_type .wrapped)
    (7 : Nat) (7 : Nat) rfl rfl

theorem iterator.dtor_valid (h : Heap S) (t : iterator S) (hv : t.valid h) :
    ∃ h1, iterator.dtor h t = .ok h1 := by
  obtain ⟨f, st⟩ := t
  cases f with
  | true =>
    cases st with
    | _stack o =>
      exact ⟨h, by simp [iterator.dtor, iterator.stack_concept, bind, Except.bind, pure,
        Except.pure]⟩
    | _heap p => simp [iterator.valid] at hv
  | false =>
    cases st with
    | _stack o => simp [iterator.valid] at hv
    | _heap p =>
      cases p with
      | none => exact ⟨h, by simp [iterator.dtor, pure, Except.pure]⟩
      | some p =>
        simp only [iterator.valid] at hv
        cases hl : h.load p with
        | none => simp [hl] at hv
        | some o =>
          exact ⟨⟨h.cells.set p none⟩, by simp [iterator.dtor, Heap.delete_ok h o p hl]⟩

/-- C2: when a cursor is move-constructed or move-assigned from an inline cursor `c` that
holds a live implementation object, `c` is left holding the sentinel in its inline buffer.
In that state `operator*` and `operator->` each throw `std::logic_error`, the destructor
runs, and copy- or move-assigning a live cursor `b` to it succeeds, after which it
dereferences to the element of `b`. -/
theorem C2_inline_moved_from_is_sentinel (ops : CursorOps S) (h : Heap S) (c : iterator S)
    (It : ItType S.Kind) (d : S.DataOf It)
    (hin : c._on_stack = true) (hc : c.get_concept h = .ok (.it_model It d)) :
    (∃ t, iterator.move_ctor c = .ok (t, ⟨true, ._stack .empty_model⟩)) ∧
    (∀ t : iterator S, t.valid h →
      ∃ h1 t1, iterator.move_assign h t c = .ok (h1, t1, ⟨true, ._stack .empty_model⟩)) ∧
    (∀ h1 : Heap S,
      iterator.operator_star ops h1 ⟨true, ._stack .empty_model⟩
        = .error (.logic_error "empty_model operator*()") ∧
      iterator.operator_arrow ops h1 ⟨true, ._stack .empty_model⟩
        = .error (.logic_error "empty_model operator->()") ∧
      iterator.dtor h1 ⟨true, ._stack .empty_model⟩ = .ok h1 ∧
      ∀ (b : iterator S) (Ib : ItType S.Kind) (db : S.DataOf Ib),
        b.get_concept h1 = .ok (.it_model Ib db) →
        (∃ h2 c2, iterator.copy_assign h1 ⟨true, ._stack .empty_model⟩ b = .ok (h2, c2) ∧
          iterator.operator_star ops h2 c2 = .ok (ops.deref_data Ib db) ∧
          iterator.operator_star ops h1 b = .ok (ops.deref_data Ib db)) ∧
        (∃ c2 b2, iterator.move_assign h1 ⟨true, ._stack .empty_model⟩ b = .ok (h1, c2, b2) ∧
          iterator.operator_star ops h1 c2 = .ok (ops.deref_data Ib db))) := by
  have hst : c.storage = ._stack (.it_model It d) := by
    rcases (iterator.get_concept_ok_iff h c _).1 hc with ⟨_, hs⟩ | ⟨hf, _⟩
    · exact hs
    · simp [hin] at hf
  refine ⟨?_, ?_, ?_⟩
  · exact ⟨⟨true, ._stack (.it_model It d)⟩, by
      simp [iterator.move_ctor, iterator.transfer_move, hin, hst, bind, Except.bind,
        pure, Except.pure]⟩
  · intro t hv
    obtain ⟨h1, hd⟩ := iterator.dtor_valid h t hv
    exact ⟨h1, ⟨true, ._stack (.it_model It d)⟩, by
      simp [iterator.move_assign, iterator.transfer_move, hin, hst, hd, bind,
        Except.bind, pure, Except.pure]⟩
  · intro h1
    refine ⟨by rfl, by rfl, by rfl, ?_⟩
    intro b Ib db hb
    have hstar : iterator.operator_star ops h1 b = .ok (ops.deref_data Ib db) := by
      simp [iterator.operator_star, hb, bind, Except.bind, it_concept.star, pure, Except.pure]
    obtain ⟨bf, bs⟩ := b
    rcases (iterator.get_concept_ok_iff h1 _ _).1 hb with ⟨hf, hs⟩ | ⟨hf, p, hs, hl⟩ <;>
      simp only at hf hs <;> subst hf hs
    · constructor
      · refine ⟨h1, ⟨true, ._stack (.it_model Ib db)⟩, ?_, ?_, hstar⟩
        · simp [iterator.copy_assign, iterator.dtor, iterator.transfer_copy,
            iterator.stack_concept, bind, Except.bind, pure, Except.pure,
            it_concept.copy]
        · rfl
      · refine ⟨⟨true, ._stack (.it_model Ib db)⟩, ⟨true, ._stack .empty_model⟩, ?_, ?_⟩
        · simp [iterator.move_assign, iterator.dtor, iterator.transfer_move,
            iterator.stack_concept, bind, Except.bind, pure, Except.pure]
        · rfl
    · constructor
      · refine ⟨(h1.make_unique (.it_model Ib db)).1,
          ⟨false, ._heap (some (h1.make_unique (.it_model Ib db)).2)⟩, ?_, ?_, hstar⟩
        · simp [iterator.copy_assign, iterator.dtor, iterator.transfer_copy,
            iterator.stack_concept, iterator.heap_concept, hl, bind, Except.bind, pure,
            Except.pure, it_concept.copy]
        · simp [iterator.operator_star, iterator.get_concept, iterator.heap_concept,
            Heap.load_make_unique_new, bind, Except.bind, pure, Except.pure, it_concept.star]
      · refine ⟨⟨false, ._heap (some p)⟩, ⟨false, ._heap none⟩, ?_, ?_⟩
        · simp [iterator.move_assign, iterator.dtor, iterator.transfer_move,
            iterator.stack_concept, bind, Except.bind, pure, Except.pure]
        · simp [iterator.operator_star, iterator.get_concept, iterator.heap_concept, hl,
            bind, Except.bind, pure, Except.pure, it_concept.star]

/-- C2 at the inline pointer cursor `demo_inline`. -/
theorem C2_inline_moved_from_is_sentinel_witness :
    demo_inline._on_stack = true ∧
    demo_inline.get_concept demo_heap = .ok (.it_model .pointer (100 : Nat)) ∧
    (∃ t, iterator.move_ctor demo_inline = .ok (t, ⟨true, ._stack .empty_model⟩)) ∧
    iterator.operator_star demo_ops demo_heap ⟨true, ._stack .empty_model⟩
      = .error (.logic_error "empty_model operator*()") :=
  ⟨rfl, rfl,
    (C2_inline_moved_from_is_sentinel demo_ops demo_heap demo_inline .pointer (100 : Nat)
      rfl rfl).1,
    ((C2_inline_moved_from_is_sentinel demo_ops demo_heap demo_inline .pointer (100 : Nat)
      rfl rfl).2.2 demo_heap).1⟩

/-- C3: the owned cursor `demo_owned` is moved from, by construction and by assignment to
`demo_inline`. It is left with a null `_heap`, so that `operator*` and `operator->` on it
dereference a null pointer: undefined behaviour, and no `std::logic_error` is thrown.
The inline sibling path leaves the sentinel, which does throw. Destruction and
re-assignment of the moved-from cursor do succeed. -/
theorem C3_owned_moved_from_deref_is_undefined :
    iterator.move_ctor demo_owned.2
      = .ok (⟨false, ._heap (some 0)⟩, ⟨false, ._heap none⟩) ∧
    iterator.move_assign demo_owned.1 demo_inline demo_owned.2
      = .ok (demo_owned.1, ⟨false, ._heap (some 0)⟩, ⟨false, ._heap none⟩) ∧
    iterator.operator_star demo_ops demo_owned.1 ⟨false, ._heap none⟩
      = .error .undefined_behaviour ∧
    iterator.operator_arrow demo_ops demo_owned.1 ⟨false, ._heap none⟩
      = .error .undefined_behaviour ∧
    iterator.operator_star demo_ops demo_owned.1 demo_owned.2 = .ok 100 ∧
    iterator.dtor demo_owned.1 ⟨false, ._heap none⟩ = .ok demo_owned.1 ∧
    iterator.copy_assign demo_owned.1 ⟨false, ._heap none⟩ demo_inline
      = .ok (demo_owned.1, demo_inline) ∧
    iterator.operator_star demo_ops demo_heap
      (⟨true, ._stack .empty_model⟩ : iterator Demo)
      = .error (.logic_error "empty_model operator*()") :=
  ⟨rfl, rfl, rfl, rfl, rfl, rfl, rfl, rfl⟩

theorem iterator.star_of_get_concept (ops : CursorOps S) (h : Heap S) (c : iterator S)
    (It : ItType S.Kind) (d : S.DataOf It) (hc : c.get_concept h = .ok (.it_model It d)) :
    iterator.operator_star ops h c = .ok (ops.deref_data It d) := by
  simp [iterator.operator_star, hc, bind, Except.bind, it_concept.star, pure, Except.pure]

theorem iterator.eq_of_get_concept (ops : CursorOps S) (h : Heap S) (a b : iterator S)
    (It : ItType S.Kind) (d e : S.DataOf It) (ha : a.get_concept h = .ok (.it_model It d))
    (hb : b.get_concept h = .ok (.it_model It e)) :
    iterator.operator_eq ops h a b = .ok (ops.eq_data It d e) := by
  simp [iterator.operator_eq, ha, hb, bind, Except.bind, it_concept_eq_same]

/-- Copy construction from a cursor holding `obj`: the copy holds `obj` at a place of its
own, and everything that was held before is still held. -/
theorem iterator.copy_ctor_spec (h : Heap S) (c : iterator S) (obj : it_concept S)
    (hc : c.get_concept h = .ok obj) :
    ∃ h1 k, iterator.copy_ctor h c = .ok (h1, k) ∧
      k._on_stack = c._on_stack ∧
      k.get_concept h1 = .ok obj ∧
      (∀ p, k.storage = ._heap (some p) → h.cells.length ≤ p) ∧
      (c._on_stack = true → h1 = h ∧ k.storage = ._stack obj) ∧
      (c._on_stack = false → h1 = (h.make_unique obj).1 ∧
        k.storage = ._heap (some (h.make_unique obj).2)) ∧
      (∀ (b : iterator S) (o : it_concept S), b.get_concept h = .ok o →
        b.get_concept h1 = .ok o) := by
  obtain ⟨cf, cs⟩ := c
  rcases (iterator.get_concept_ok_iff h _ _).1 hc with ⟨hf, hs⟩ | ⟨hf, p, hs, hl⟩ <;>
    simp only at hf hs <;> subst hf hs
  · refine ⟨h, ⟨true, ._stack obj⟩, ?_, rfl, rfl, ?_, ?_, ?_, ?_⟩
    · simp [iterator.copy_ctor, iterator.transfer_copy, iterator.stack_concept, bind,
        Except.bind, pure, Except.pure, it_concept.copy]
    · intro p hp; cases hp
    · intro _; exact ⟨rfl, rfl⟩
    · intro hf; cases hf
    · intro b o hb; exact hb
  · refine ⟨(h.make_unique obj).1, ⟨false, ._heap (some (h.make_unique obj).2)⟩,
      ?_, rfl, ?_, ?_, ?_, ?_, ?_⟩
    · simp [iterator.copy_ctor, iterator.transfer_copy, iterator.heap_concept, hl, bind,
        Except.bind, pure, Except.pure, it_concept.copy]
    · simp [iterator.get_concept, iterator.heap_concept, Heap.load_make_unique_new, bind,
        Except.bind, pure, Except.pure]
    · intro q hq
      cases hq
      exact Nat.le_refl _
    · intro hf; cases hf
    · intro _; exact ⟨rfl, rfl⟩
    · intro b o hb
      rcases (iterator.get_concept_ok_iff h _ _).1 hb with ⟨hf, hs⟩ | ⟨hf, q, hs, hq⟩
      · exact (iterator.get_concept_ok_iff _ _ _).2 (Or.inl ⟨hf, hs⟩)
      · exact (iterator.get_concept_ok_iff _ _ _).2
          (Or.inr ⟨hf, q, hs, Heap.load_make_unique_old h obj o q hq⟩)


/-- One `operator++` on a cursor holding `obj`: it then holds the advanced object at the
same place, and every cursor not sharing its allocation holds what it held. -/
theorem iterator.operator_inc_spec (ops : CursorOps S) (h : Heap S) (a : iterator S)
    (obj : it_concept S) (ha : a.get_concept h = .ok obj) :
    ∃ h1 a1, iterator.operator_inc ops h a = .ok (h1, a1) ∧
      a1._on_stack = a._on_stack ∧
      a1.get_concept h1 = .ok (obj.incr ops) ∧
      (∀ p, a1.storage = ._heap (some p) ↔ a.storage = ._heap (some p)) ∧
      (a._on_stack = false → a1 = a) ∧
      (a._on_stack = true → h1 = h) ∧
      (∀ (b : iterator S) (o : it_concept S), a.separate b → b.get_concept h = .ok o →
        b.get_concept h1 = .ok o) := by
  obtain ⟨af, as⟩ := a
  rcases (iterator.get_concept_ok_iff h _ _).1 ha with ⟨hf, hs⟩ | ⟨hf, p, hs, hl⟩ <;>
    simp only at hf hs <;> subst hf hs
  · refine ⟨h, ⟨true, ._stack (obj.incr ops)⟩, ?_, rfl, rfl, ?_, ?_, ?_, ?_⟩
    · simp [iterator.operator_inc, iterator.stack_concept, bind, Except.bind, pure,
        Except.pure]
    · intro p; constructor <;> intro hp <;> cases hp
    · intro hf; cases hf
    · intro _; rfl
    · intro b o _ hb; exact hb
  · refine ⟨h.store p (obj.incr ops), ⟨false, ._heap (some p)⟩, ?_, rfl, ?_, ?_, ?_, ?_, ?_⟩
    · simp [iterator.operator_inc, iterator.heap_concept, hl, bind, Except.bind, pure,
        Except.pure]
    · simp [iterator.get_concept, iterator.heap_concept, Heap.load_store_same h _ obj p hl,
        bind, Except.bind, pure, Except.pure]
    · intro q; exact Iff.rfl
    · intro _; rfl
    · intro hf; cases hf
    · intro b o hsep hb
      rcases (iterator.get_concept_ok_iff h _ _).1 hb with ⟨hf, hs⟩ | ⟨hf, q, hs, hq⟩
      · exact (iterator.get_concept_ok_iff _ _ _).2 (Or.inl ⟨hf, hs⟩)
      · have hne : p ≠ q := by
          intro e
          subst e
          exact hsep p rfl hs
        exact (iterator.get_concept_ok_iff _ _ _).2
          (Or.inr ⟨hf, q, hs, by rw [Heap.load_store_ne h _ p q hne]; exact hq⟩)

/-- The object a cursor holds after `n` advances of the object `obj`. -/
theorem it_concept.incr_iterate (ops : CursorOps S) (It : ItType S.Kind) (d : S.DataOf It)
    (n : Nat) :
    (it_concept.incr ops)^[n] (.it_model It d) = .it_model It ((ops.incr_data It)^[n] d) := by
  induction n generalizing d with
  | zero => rfl
  | succ n ih =>
    rw [Function.iterate_succ_apply, Function.iterate_succ_apply]
    exact ih _

/-- Advancing `n` times a cursor holding `obj`: it then holds `obj` advanced `n` times,
and every cursor not sharing its allocation holds what it held. -/
theorem iterator.advance_spec (ops : CursorOps S) (n : Nat) :
    ∀ (h : Heap S) (a : iterator S) (obj : it_concept S), a.get_concept h = .ok obj →
    ∃ hn an, iterator.advance ops n h a = .ok (hn, an) ∧
      an._on_stack = a._on_stack ∧
      an.get_concept hn = .ok ((it_concept.incr ops)^[n] obj) ∧
      (∀ (b : iterator S) (o : it_concept S), a.separate b → b.get_concept h = .ok o →
        b.get_concept hn = .ok o) := by
  induction n with
  | zero =>
    intro h a obj ha
    exact ⟨h, a, rfl, rfl, ha, fun b o _ hb => hb⟩
  | succ n ih =>
    intro h a obj ha
    obtain ⟨h1, a1, hinc, hflag, hget, hst, _, _, hframe⟩ :=
      iterator.operator_inc_spec ops h a obj ha
    obtain ⟨hn, an, hadv, hflag2, hget2, hframe2⟩ := ih h1 a1 (obj.incr ops) hget
    refine ⟨hn, an, ?_, hflag2.trans hflag, ?_, ?_⟩
    · simp [iterator.advance, hinc, bind, Except.bind, hadv]
    · rw [Function.iterate_succ_apply]; exact hget2
    · intro b o hsep hb
      refine hframe2 b o ?_ (hframe b o hsep hb)
      intro p hp
      exact hsep p ((hst p).1 hp)

/-- C4: move construction from a cursor `c` holding a live implementation object yields a
cursor `t` holding that very object: same concrete type and wrapped value, in the same
allocation when `c` is owned. `t` dereferences to the element `c` designated and compares
equal to a copy of `c` taken before the move. An inline source is left holding the
sentinel, an owned source is left with a null `_heap`. -/
theorem C4_move_ctor_transfers_object (ops : CursorOps S) (h : Heap S) (c : iterator S)
    (It : ItType S.Kind) (d : S.DataOf It)
    (hc : c.get_concept h = .ok (.it_model It d))
    (hrefl : ops.eq_data It d d = true) :
    ∃ t c1, iterator.move_ctor c = .ok (t, c1) ∧
      t.get_concept h = .ok (.it_model It d) ∧
      iterator.operator_star ops h t = iterator.operator_star ops h c ∧
      iterator.operator_star ops h t = .ok (ops.deref_data It d) ∧
      (c._on_stack = true → c1 = ⟨true, ._stack .empty_model⟩) ∧
      (c._on_stack = false → c1 = ⟨false, ._heap none⟩ ∧ t.storage = c.storage) ∧
      (∃ h1 k, iterator.copy_ctor h c = .ok (h1, k) ∧
        iterator.operator_eq ops h1 t k = .ok true) := by
  obtain ⟨h1, k, hcopy, _, hk, _, _, _, hkeep⟩ := iterator.copy_ctor_spec h c _ hc
  obtain ⟨cf, cs⟩ := c
  rcases (iterator.get_concept_ok_iff h _ _).1 hc with ⟨hf, hs⟩ | ⟨hf, p, hs, hl⟩ <;>
    simp only at hf hs <;> subst hf hs
  · have ht : iterator.get_concept h (⟨true, ._stack (.it_model It d)⟩ : iterator S)
        = .ok (.it_model It d) := rfl
    refine ⟨⟨true, ._stack (.it_model It d)⟩, ⟨true, ._stack .empty_model⟩, ?_, ht, rfl,
      iterator.star_of_get_concept ops h _ It d ht, fun _ => rfl, ?_, h1, k, hcopy, ?_⟩
    · simp [iterator.move_ctor, iterator.transfer_move, bind, Except.bind, pure, Except.pure]
    · intro hf; cases hf
    · rw [iterator.eq_of_get_concept ops h1 _ k It d d (hkeep _ _ ht) hk, hrefl]
  · have ht : iterator.get_concept h (⟨false, ._heap (some p)⟩ : iterator S)
        = .ok (.it_model It d) := hc
    refine ⟨⟨false, ._heap (some p)⟩, ⟨false, ._heap none⟩, ?_, ht, rfl,
      iterator.star_of_get_concept ops h _ It d ht, ?_, fun _ => ⟨rfl, rfl⟩, h1, k, hcopy, ?_⟩
    · simp [iterator.move_ctor, iterator.transfer_move, bind, Except.bind, pure, Except.pure]
    · intro hf; cases hf
    · rw [iterator.eq_of_get_concept ops h1 _ k It d d (hkeep _ _ ht) hk, hrefl]

/-- C4 at the owned cursor `demo_owned`. -/
theorem C4_move_ctor_transfers_object_witness :
    demo_owned.2.get_concept demo_owned.1
      = .ok (.it_model (.class_type .strided) ((100 : Nat), (2 : Nat))) ∧
    demo_ops.eq_data (.class_type .strided) ((100 : Nat), (2 : Nat)) ((100 : Nat), (2 : Nat))
      = true ∧
    ∃ t c1, iterator.move_ctor demo_owned.2 = .ok (t, c1) ∧
      t.get_concept demo_owned.1
        = .ok (.it_model (.class_type .strided) ((100 : Nat), (2 : Nat))) ∧
      (∃ h1 k, iterator.copy_ctor demo_owned.1 demo_owned.2 = .ok (h1, k) ∧
        iterator.operator_eq demo_ops h1 t k = .ok true) :=
  ⟨rfl, rfl,
    let ⟨t, c1, hm, hg, _, _, _, _, he⟩ :=
      C4_move_ctor_transfers_object demo_ops demo_owned.1 demo_owned.2
        (.class_type .strided) ((100 : Nat), (2 : Nat)) rfl rfl
    ⟨t, c1, hm, hg, he⟩⟩

/-- C5: a copy `k` of a cursor `c` holding a live implementation object has the storage mode
of `c`, compares equal to `c` and dereferences to the same element; advancing `k` any
number of times leaves the object `c` holds unchanged, and advancing `c` leaves the object
`k` holds unchanged. -/
theorem C5_copy_is_equal_and_independent (ops : CursorOps S) (h : Heap S) (c : iterator S)
    (It : ItType S.Kind) (d : S.DataOf It)
    (hc : c.get_concept h = .ok (.it_model It d))
    (hrefl : ops.eq_data It d d = true) :
    ∃ h1 k, iterator.copy_ctor h c = .ok (h1, k) ∧
      k._on_stack = c._on_stack ∧
      iterator.operator_eq ops h1 k c = .ok true ∧
      iterator.operator_star ops h1 k = iterator.operator_star ops h1 c ∧
      iterator.operator_star ops h1 k = .ok (ops.deref_data It d) ∧
      (∀ n, ∃ hn kn, iterator.advance ops n h1 k = .ok (hn, kn) ∧
        kn.get_concept hn = .ok (.it_model It ((ops.incr_data It)^[n] d)) ∧
        c.get_concept hn = .ok (.it_model It d)) ∧
      (∀ n, ∃ hn cn, iterator.advance ops n h1 c = .ok (hn, cn) ∧
        cn.get_concept hn = .ok (.it_model It ((ops.incr_data It)^[n] d)) ∧
        k.get_concept hn = .ok (.it_model It d)) := by
  obtain ⟨h1, k, hcopy, hflag, hk, hfresh, _, _, hkeep⟩ := iterator.copy_ctor_spec h c _ hc
  have hc1 := hkeep c _ hc
  have hsep : k.separate c := by
    intro p hp hcp
    have hle := hfresh p hp
    rcases (iterator.get_concept_ok_iff h _ _).1 hc with ⟨_, hs⟩ | ⟨_, q, hs, hl⟩
    · rw [hs] at hcp; cases hcp
    · rw [hs] at hcp
      cases hcp
      exact absurd (Heap.load_lt h _ _ hl) (not_lt.mpr hle)
  have hsep2 : c.separate k := fun p hp hkp => hsep p hkp hp
  refine ⟨h1, k, hcopy, hflag, ?_, ?_, iterator.star_of_get_concept ops h1 k It d hk, ?_, ?_⟩
  · rw [iterator.eq_of_get_concept ops h1 k c It d d hk hc1, hrefl]
  · rw [iterator.star_of_get_concept ops h1 k It d hk,
      iterator.star_of_get_concept ops h1 c It d hc1]
  · intro n
    obtain ⟨hn, kn, hadv, _, hget, hframe⟩ := iterator.advance_spec ops n h1 k _ hk
    exact ⟨hn, kn, hadv, by rw [hget, it_concept.incr_iterate], hframe c _ hsep hc1⟩
  · intro n
    obtain ⟨hn, cn, hadv, _, hget, hframe⟩ := iterator.advance_spec ops n h1 c _ hc1
    exact ⟨hn, cn, hadv, by rw [hget, it_concept.incr_iterate], hframe k _ hsep2 hk⟩

/-- C5 at the owned cursor `demo_owned`. -/
theorem C5_copy_is_equal_and_independent_witness :
    demo_owned.2.get_concept demo_owned.1
      = .ok (.it_model (.class_type .strided) ((100 : Nat), (2 : Nat))) ∧
    demo_ops.eq_data (.class_type .strided) ((100 : Nat), (2 : Nat)) ((100 : Nat), (2 : Nat))
      = true ∧
    ∃ h1 k, iterator.copy_ctor demo_owned.1 demo_owned.2 = .ok (h1, k) ∧
      iterator.operator_eq demo_ops h1 k demo_owned.2 = .ok true ∧
      (∀ n, ∃ hn kn, iterator.advance demo_ops n h1 k = .ok (hn, kn) ∧
        kn.get_concept hn = .ok (.it_model (.class_type .strided)
          ((demo_ops.incr_data (.class_type .strided))^[n] ((100 : Nat), (2 : Nat)))) ∧
        demo_owned.2.get_concept hn
          = .ok (.it_model (.class_type .strided) ((100 : Nat), (2 : Nat)))) :=
  ⟨rfl, rfl,
    let ⟨h1, k, hcp, _, he, _, _, hadv, _⟩ :=
      C5_copy_is_equal_and_independent demo_ops demo_owned.1 demo_owned.2
        (.class_type .strided) ((100 : Nat), (2 : Nat)) rfl rfl
    ⟨h1, k, hcp, he, hadv⟩⟩

/-- Destroying a valid cursor leaves every cursor that does not share its allocation
holding what it held. -/
theorem iterator.dtor_frame (h : Heap S) (t : iterator S) (hv : t.valid h) :
    ∃ h1, iterator.dtor h t = .ok h1 ∧
      ∀ (b : iterator S) (o : it_concept S), t.separate b → b.get_concept h = .ok o →
        b.get_concept h1 = .ok o := by
  obtain ⟨f, st⟩ := t
  cases f with
  | true =>
    cases st with
    | _stack o =>
      exact ⟨h, by simp [iterator.dtor, iterator.stack_concept, bind, Except.bind, pure,
        Except.pure], fun b o _ hb => hb⟩
    | _heap p => simp [iterator.valid] at hv
  | false =>
    cases st with
    | _stack o => simp [iterator.valid] at hv
    | _heap p =>
      cases p with
      | none => exact ⟨h, by simp [iterator.dtor, pure, Except.pure], fun b o _ hb => hb⟩
      | some p =>
        simp only [iterator.valid] at hv
        cases hl : h.load p with
        | none => simp [hl] at hv
        | some o =>
          refine ⟨⟨h.cells.set p none⟩, by simp [iterator.dtor, Heap.delete_ok h o p hl], ?_⟩
          intro b ob hsep hb
          rcases (iterator.get_concept_ok_iff h _ _).1 hb with ⟨hf, hs⟩ | ⟨hf, q, hs, hq⟩
          · exact (iterator.get_concept_ok_iff _ _ _).2 (Or.inl ⟨hf, hs⟩)
          · have hne : p ≠ q := by
              intro e
              subst e
              exact hsep p rfl hs
            exact (iterator.get_concept_ok_iff _ _ _).2
              (Or.inr ⟨hf, q, hs, by rw [Heap.load_delete_ne h p q hne]; exact hq⟩)

theorem iterator.copy_assign_eq (h : Heap S) (self other : iterator S) :
    iterator.copy_assign h self other
      = (iterator.dtor h self).bind (fun h1 => iterator.copy_ctor h1 other) := by
  simp only [iterator.copy_assign, iterator.copy_ctor, bind]

/-- Copy assignment to a valid cursor from a cursor holding `obj` in another allocation:
the target then holds a copy of `obj` in the storage mode of the source, which still
holds `obj`. -/
theorem iterator.copy_assign_spec (h : Heap S) (self other : iterator S) (obj : it_concept S)
    (hv : self.valid h) (ho : other.get_concept h = .ok obj) (hsep : self.separate other) :
    ∃ h2 a, iterator.copy_assign h self other = .ok (h2, a) ∧
      a._on_stack = other._on_stack ∧
      a.get_concept h2 = .ok obj ∧
      other.get_concept h2 = .ok obj := by
  obtain ⟨h1, hd, hframe⟩ := iterator.dtor_frame h self hv
  have ho1 := hframe other obj hsep ho
  obtain ⟨h2, k, hcopy, hflag, hk, _, _, _, hkeep⟩ := iterator.copy_ctor_spec h1 other obj ho1
  refine ⟨h2, k, ?_, hflag, hk, hkeep other obj ho1⟩
  rw [iterator.copy_assign_eq, hd]
  exact hcopy

/-- Move construction succeeds whenever the flag of the source names its active member. -/
theorem iterator.move_ctor_total (c : iterator S) (hv : c.flag_agrees = true) :
    ∃ t c1, iterator.move_ctor c = .ok (t, c1) := by
  obtain ⟨f, st⟩ := c
  cases f <;> cases st <;>
    simp [iterator.flag_agrees, iterator.move_ctor, iterator.transfer_move, bind, Except.bind,
      pure, Except.pure] at hv ⊢

theorem iterator.valid_flag_agrees (h : Heap S) (c : iterator S) (hv : c.valid h) :
    c.flag_agrees = true := by
  obtain ⟨f, st⟩ := c
  cases f <;> cases st <;> simp [iterator.valid, iterator.flag_agrees] at hv ⊢

/-- Any result of `operator++` has the flag of the cursor advanced. -/
theorem iterator.operator_inc_flag (ops : CursorOps S) (h : Heap S) (c : iterator S)
    (r : Heap S × iterator S) (hr : iterator.operator_inc ops h c = .ok r) :
    r.2._on_stack = c._on_stack := by
  obtain ⟨f, st⟩ := c
  cases f with
  | true =>
    cases st with
    | _stack o =>
      simp [iterator.operator_inc, iterator.stack_concept, bind, Except.bind, pure,
        Except.pure] at hr
      rw [← hr]
    | _heap p =>
      simp [iterator.operator_inc, iterator.stack_concept, bind, Except.bind, throw, throwThe,
        MonadExceptOf.throw] at hr
  | false =>
    simp only [iterator.operator_inc, Bool.false_eq_true, if_false] at hr
    cases hh : iterator.heap_concept h ⟨false, st⟩ with
    | error e => simp [hh, bind, Except.bind] at hr
    | ok v =>
      simp [hh, bind, Except.bind, pure, Except.pure] at hr
      rw [← hr]


theorem Except.bind_ok {ε α β : Type} (x : Except ε α) (f : α → Except ε β) (r : β)
    (hr : (x >>= f) = .ok r) : ∃ a, x = .ok a ∧ f a = .ok r := by
  cases x with
  | error e => simp [bind, Except.bind] at hr
  | ok a => exact ⟨a, rfl, by simpa [bind, Except.bind] using hr⟩

/-- Any result of `transfer(const iterator&)` initialises the member its flag names. -/
theorem iterator.transfer_copy_agrees (h : Heap S) (f : Bool) (other : iterator S)
    (r : Heap S × Storage S) (hr : iterator.transfer_copy h f other = .ok r) :
    iterator.flag_agrees ⟨f, r.2⟩ = true := by
  cases f with
  | true =>
    simp only [iterator.transfer_copy, if_true] at hr
    obtain ⟨a, _, ha⟩ := Except.bind_ok _ _ _ hr
    simp [pure, Except.pure] at ha
    rw [← ha]; rfl
  | false =>
    simp only [iterator.transfer_copy, Bool.false_eq_true, if_false] at hr
    obtain ⟨a, _, ha⟩ := Except.bind_ok _ _ _ hr
    simp [pure, Except.pure] at ha
    rw [← ha]; rfl

/-- Any result of `transfer(iterator&&)` initialises the member its flag names, and
leaves the same member active in the source. -/
theorem iterator.transfer_move_agrees (f : Bool) (other : iterator S)
    (r : Storage S × Storage S) (hr : iterator.transfer_move f other = .ok r) :
    iterator.flag_agrees ⟨f, r.1⟩ = true ∧ iterator.flag_agrees ⟨f, r.2⟩ = true := by
  obtain ⟨g, st⟩ := other
  cases f <;> cases st <;>
    simp [iterator.transfer_move, pure, Except.pure, throw, throwThe, MonadExceptOf.throw] at hr
  all_goals (rw [← hr]; exact ⟨rfl, rfl⟩)

theorem iterator.copy_ctor_flag (h : Heap S) (c : iterator S) (r : Heap S × iterator S)
    (hr : iterator.copy_ctor h c = .ok r) :
    r.2._on_stack = c._on_stack ∧ r.2.flag_agrees = true := by
  obtain ⟨a, ha, hp⟩ := Except.bind_ok _ _ _ hr
  simp [pure, Except.pure] at hp
  rw [← hp]
  exact ⟨rfl, iterator.transfer_copy_agrees h _ c a ha⟩

theorem iterator.move_ctor_flag (c : iterator S) (r : iterator S × iterator S)
    (hr : iterator.move_ctor c = .ok r) :
    r.1._on_stack = c._on_stack ∧ r.1.flag_agrees = true ∧
    r.2._on_stack = c._on_stack ∧ r.2.flag_agrees = true := by
  obtain ⟨a, ha, hp⟩ := Except.bind_ok _ _ _ hr
  simp [pure, Except.pure] at hp
  rw [← hp]
  obtain ⟨h1, h2⟩ := iterator.transfer_move_agrees _ c a ha
  exact ⟨rfl, h1, rfl, h2⟩

theorem iterator.copy_assign_flag (h : Heap S) (self other : iterator S)
    (r : Heap S × iterator S) (hr : iterator.copy_assign h self other = .ok r) :
    r.2._on_stack = other._on_stack ∧ r.2.flag_agrees = true := by
  rw [iterator.copy_assign_eq] at hr
  obtain ⟨h1, _, hc⟩ := Except.bind_ok _ _ _ hr
  exact iterator.copy_ctor_flag h1 other r hc

theorem iterator.move_assign_flag (h : Heap S) (self other : iterator S)
    (r : Heap S × iterator S × iterator S) (hr : iterator.move_assign h self other = .ok r) :
    r.2.1._on_stack = other._on_stack ∧ r.2.1.flag_agrees = true ∧
    r.2.2._on_stack = other._on_stack ∧ r.2.2.flag_agrees = true := by
  obtain ⟨h1, _, hc⟩ := Except.bind_ok _ _ _ hr
  obtain ⟨a, ha, hp⟩ := Except.bind_ok _ _ _ hc
  simp [pure, Except.pure] at hp
  rw [← hp]
  obtain ⟨h1, h2⟩ := iterator.transfer_move_agrees _ other a ha
  exact ⟨rfl, h1, rfl, h2⟩

/-- Post-increment of a cursor holding `obj`: the snapshot returned holds `obj`, and the
cursor is what `operator++` alone makes of it, holding the advanced object. -/
theorem iterator.operator_post_inc_spec (ops : CursorOps S) (h : Heap S) (c : iterator S)
    (obj : it_concept S) (hc : c.get_concept h = .ok obj) :
    ∃ h2 c2 snap hi, iterator.operator_post_inc ops h c = .ok (h2, c2, snap) ∧
      iterator.operator_inc ops h c = .ok (hi, c2) ∧
      c2._on_stack = c._on_stack ∧ snap._on_stack = c._on_stack ∧
      c2.get_concept h2 = .ok (obj.incr ops) ∧
      c2.get_concept hi = .ok (obj.incr ops) ∧
      snap.get_concept h2 = .ok obj ∧
      (∃ h1, iterator.copy_ctor h c = .ok (h1, snap) ∧ snap.get_concept h1 = .ok obj) := by
  obtain ⟨h1, k, hcopy, hflag, hk, hfresh, hst, hhp, hkeep⟩ := iterator.copy_ctor_spec h c _ hc
  have hc1 := hkeep c _ hc
  obtain ⟨h2, c2, hinc, hf2, hget2, _, hsame, _, hframe⟩ :=
    iterator.operator_inc_spec ops h1 c obj hc1
  obtain ⟨hi, ci, hinci, _, hgeti, _, hsamei, _, _⟩ := iterator.operator_inc_spec ops h c obj hc
  have hsep : c.separate k := by
    intro p hcp hkp
    have hle := hfresh p hkp
    rcases (iterator.get_concept_ok_iff h _ _).1 hc with ⟨_, hs⟩ | ⟨_, q, hs, hl⟩
    · rw [hs] at hcp; cases hcp
    · rw [hs] at hcp
      cases hcp
      exact absurd (Heap.load_lt h _ _ hl) (not_lt.mpr hle)
  have hci : ci = c2 := by
    obtain ⟨cf, cs⟩ := c
    rcases (iterator.get_concept_ok_iff h _ _).1 hc with ⟨hf, hs⟩ | ⟨hf, q, hs, hl⟩ <;>
      simp only at hf hs <;> subst hf hs
    · have e1 := (hst rfl).1
      subst e1
      rw [hinc] at hinci
      cases hinci
      rfl
    · rw [hsame rfl, hsamei rfl]
  subst hci
  refine ⟨h2, ci, k, hi, ?_, hinci, hf2, hflag, hget2, hgeti, hframe k obj hsep hk,
    h1, hcopy, hk⟩
  simp [iterator.operator_post_inc, hcopy, hinc, bind, Except.bind, pure, Except.pure]


theorem iterator.operator_post_inc_flag (ops : CursorOps S) (h : Heap S) (c : iterator S)
    (r : Heap S × iterator S × iterator S) (hr : iterator.operator_post_inc ops h c = .ok r) :
    r.2.1._on_stack = c._on_stack ∧ r.2.2._on_stack = c._on_stack := by
  obtain ⟨cur, hcur, h2⟩ := Except.bind_ok _ _ _ hr
  obtain ⟨adv, hadv, h3⟩ := Except.bind_ok _ _ _ h2
  simp [pure, Except.pure] at h3
  rw [← h3]
  exact ⟨iterator.operator_inc_flag ops cur.1 c adv hadv, (iterator.copy_ctor_flag h c cur hcur).1⟩

theorem Machine.assign_copy_flag (m m1 : Machine S) (this other : Nat)
    (hr : m.operator_assign_copy this other = .ok m1) :
    (m1.objs this)._on_stack = (m.objs other)._on_stack ∧
    ∀ x, x ≠ this → (m1.objs x)._on_stack = (m.objs x)._on_stack := by
  by_cases he : this = other
  · subst he
    simp [Machine.operator_assign_copy, pure, Except.pure] at hr
    subst hr
    exact ⟨rfl, fun _ _ => rfl⟩
  · simp only [Machine.operator_assign_copy, ne_eq, he, not_false_eq_true, if_true] at hr
    obtain ⟨r, hca, hp⟩ := Except.bind_ok _ _ _ hr
    simp [pure, Except.pure] at hp
    subst hp
    refine ⟨?_, fun x hx => ?_⟩
    · simp [(iterator.copy_assign_flag _ _ _ r hca).1]
    · simp [Function.update_noteq hx]

theorem Machine.assign_move_flag (m m1 : Machine S) (this other : Nat)
    (hr : m.operator_assign_move this other = .ok m1) :
    (m1.objs this)._on_stack = (m.objs other)._on_stack ∧
    ∀ x, x ≠ this → (m1.objs x)._on_stack = (m.objs x)._on_stack := by
  by_cases he : this = other
  · subst he
    simp [Machine.operator_assign_move, pure, Except.pure] at hr
    subst hr
    exact ⟨rfl, fun _ _ => rfl⟩
  · simp only [Machine.operator_assign_move, ne_eq, he, not_false_eq_true, if_true] at hr
    obtain ⟨r, hca, hp⟩ := Except.bind_ok _ _ _ hr
    simp [pure, Except.pure] at hp
    subst hp
    obtain ⟨hf1, _, hf2, _⟩ := iterator.move_assign_flag _ _ _ r hca
    refine ⟨?_, fun x hx => ?_⟩
    · simp [hf1]
    · by_cases hxo : x = other
      · subst hxo
        simp [Function.update_noteq hx, hf2]
      · simp [Function.update_noteq hx, Function.update_noteq hxo]

theorem iterator.move_assign_total (h : Heap S) (self other : iterator S)
    (hv : self.valid h) (ho : other.flag_agrees = true) :
    ∃ r, iterator.move_assign h self other = .ok r := by
  obtain ⟨h1, hd⟩ := iterator.dtor_valid h self hv
  obtain ⟨f, st⟩ := other
  cases f <;> cases st <;>
    simp [iterator.flag_agrees, iterator.move_assign, iterator.transfer_move, hd, bind,
      Except.bind, pure, Except.pure] at ho ⊢

/-- C6 as stated fails: copy- or move-assigning the owned cursor at address 1 to the inline
cursor at address 0 turns the flag of the target from `true` to `false`. -/
theorem C6_counterexample_assignment_changes_flag :
    (demo_machine.objs 0)._on_stack = true ∧
    (demo_machine.operator_assign_copy 0 1).map (fun m => (m.objs 0)._on_stack) = .ok false ∧
    (demo_machine.operator_assign_move 0 1).map (fun m => (m.objs 0)._on_stack) = .ok false :=
  ⟨rfl, rfl, rfl⟩

/-- C6, amended: advancing, post-incrementing and being moved from leave the storage-mode
flag of a cursor as it was (as does being read or copied from, which do not write the
cursor). Copy- or move-assignment gives the target the flag of the source, so the flag of
the target changes exactly when the two modes differ, and leaves the flag of every other
object, the source included, as it was; self-assignment changes nothing. On well-formed
operands each of these operations completes. -/
theorem C6_flag_changes_only_by_assignment (ops : CursorOps S) (h : Heap S) (c : iterator S)
    (m : Machine S) (this other : Nat) :
    (∀ r, iterator.operator_inc ops h c = .ok r → r.2._on_stack = c._on_stack) ∧
    (∀ r, iterator.operator_post_inc ops h c = .ok r →
      r.2.1._on_stack = c._on_stack ∧ r.2.2._on_stack = c._on_stack) ∧
    (∀ r, iterator.move_ctor c = .ok r → r.2._on_stack = c._on_stack) ∧
    (∀ m1, m.operator_assign_copy this other = .ok m1 →
      (m1.objs this)._on_stack = (m.objs other)._on_stack ∧
      ∀ x, x ≠ this → (m1.objs x)._on_stack = (m.objs x)._on_stack) ∧
    (∀ m1, m.operator_assign_move this other = .ok m1 →
      (m1.objs this)._on_stack = (m.objs other)._on_stack ∧
      ∀ x, x ≠ this → (m1.objs x)._on_stack = (m.objs x)._on_stack) ∧
    (this = other → m.operator_assign_copy this other = .ok m ∧
      m.operator_assign_move this other = .ok m) ∧
    (∀ obj, c.get_concept h = .ok obj →
      (∃ r, iterator.operator_inc ops h c = .ok r) ∧
      (∃ r, iterator.operator_post_inc ops h c = .ok r)) ∧
    (c.valid h → ∃ r, iterator.move_ctor c = .ok r) ∧
    ((m.objs this).valid m.heap → (m.objs this).separate (m.objs other) →
      ∀ obj, (m.objs other).get_concept m.heap = .ok obj →
      ∃ m1, m.operator_assign_copy this other = .ok m1) ∧
    ((m.objs this).valid m.heap → (m.objs other).valid m.heap →
      ∃ m1, m.operator_assign_move this other = .ok m1) := by
  refine ⟨iterator.operator_inc_flag ops h c, iterator.operator_post_inc_flag ops h c,
    fun r hr => (iterator.move_ctor_flag c r hr).2.2.1,
    fun m1 => Machine.assign_copy_flag m m1 this other,
    fun m1 => Machine.assign_move_flag m m1 this other, ?_, ?_, ?_, ?_, ?_⟩
  · intro he
    subst he
    simp [Machine.operator_assign_copy, Machine.operator_assign_move, pure, Except.pure]
  · intro obj hc
    obtain ⟨h1, a1, hinc, _⟩ := iterator.operator_inc_spec ops h c obj hc
    obtain ⟨h2, c2, snap, hi, hpost, _⟩ := iterator.operator_post_inc_spec ops h c obj hc
    exact ⟨⟨_, hinc⟩, ⟨_, hpost⟩⟩
  · intro hv
    obtain ⟨t, c1, hm⟩ := iterator.move_ctor_total c (iterator.valid_flag_agrees h c hv)
    exact ⟨_, hm⟩
  · intro hv hsep obj ho
    by_cases he : this = other
    · exact ⟨m, by simp [Machine.operator_assign_copy, he, pure, Except.pure]⟩
    · obtain ⟨h2, a, hca, _⟩ := iterator.copy_assign_spec m.heap _ _ obj hv ho hsep
      exact ⟨{ heap := h2, objs := Function.update m.objs this a }, by
        simp [Machine.operator_assign_copy, he, hca, bind, Except.bind, pure, Except.pure]⟩
  · intro hv ho
    by_cases he : this = other
    · exact ⟨m, by simp [Machine.operator_assign_move, he, pure, Except.pure]⟩
    · obtain ⟨r, hr⟩ := iterator.move_assign_total m.heap _ _ hv
        (iterator.valid_flag_agrees _ _ ho)
      exact ⟨{ heap := r.1,
               objs := Function.update (Function.update m.objs other r.2.2) this r.2.1 }, by
        simp [Machine.operator_assign_move, he, hr, bind, Except.bind, pure, Except.pure]⟩

/-- C6 (amended) at `demo_machine`: assigning the owned cursor at 1 to the inline cursor at
0 completes and gives the target the flag of the source. -/
theorem C6_flag_changes_only_by_assignment_witness :
    (demo_machine.objs 0).valid demo_machine.heap ∧
    (demo_machine.objs 0).separate (demo_machine.objs 1) ∧
    (demo_machine.objs 1).get_concept demo_machine.heap
      = .ok (.it_model (.class_type .strided) ((100 : Nat), (2 : Nat))) ∧
    (∃ m1, demo_machine.operator_assign_copy 0 1 = .ok m1) ∧
    (∀ m1, demo_machine.operator_assign_copy 0 1 = .ok m1 →
      (m1.objs 0)._on_stack = (demo_machine.objs 1)._on_stack ∧
      ∀ x, x ≠ 0 → (m1.objs x)._on_stack = (demo_machine.objs x)._on_stack) :=
  ⟨trivial, (fun p hp => by cases hp), rfl,
    (C6_flag_changes_only_by_assignment demo_ops demo_heap demo_inline
      demo_machine 0 1).2.2.2.2.2.2.2.2.1 trivial (fun p hp => by cases hp) _ rfl,
    (C6_flag_changes_only_by_assignment demo_ops demo_heap demo_inline
      demo_machine 0 1).2.2.2.1⟩

/-- C7: a cursor produced by copy construction or by move construction from `c` has the
flag of `c`, and its flag names the member of the union that was initialised; the cursor
left behind by a move keeps its flag and active member too. Copy construction completes
whenever `c` holds an implementation object, move construction whenever `c` is valid. -/
theorem C7_constructed_copy_keeps_mode (h : Heap S) (c : iterator S) :
    (∀ r, iterator.copy_ctor h c = .ok r →
      r.2._on_stack = c._on_stack ∧ r.2.flag_agrees = true) ∧
    (∀ r, iterator.move_ctor c = .ok r →
      r.1._on_stack = c._on_stack ∧ r.1.flag_agrees = true ∧
      r.2._on_stack = c._on_stack ∧ r.2.flag_agrees = true) ∧
    (∀ obj, c.get_concept h = .ok obj → ∃ r, iterator.copy_ctor h c = .ok r) ∧
    (c.valid h → ∃ r, iterator.move_ctor c = .ok r) := by
  refine ⟨iterator.copy_ctor_flag h c, iterator.move_ctor_flag c, ?_, ?_⟩
  · intro obj hc
    obtain ⟨h1, k, hcopy, _⟩ := iterator.copy_ctor_spec h c obj hc
    exact ⟨_, hcopy⟩
  · intro hv
    obtain ⟨t, c1, hm⟩ := iterator.move_ctor_total c (iterator.valid_flag_agrees h c hv)
    exact ⟨_, hm⟩

/-- C7 at the owned cursor `demo_owned`: both constructions complete with an owned result. -/
theorem C7_constructed_copy_keeps_mode_witness :
    demo_owned.2.get_concept demo_owned.1
      = .ok (.it_model (.class_type .strided) ((100 : Nat), (2 : Nat))) ∧
    demo_owned.2.valid demo_owned.1 ∧
    (∃ r, iterator.copy_ctor demo_owned.1 demo_owned.2 = .ok r) ∧
    (∃ r, iterator.move_ctor demo_owned.2 = .ok r) ∧
    (∀ r, iterator.copy_ctor demo_owned.1 demo_owned.2 = .ok r →
      r.2._on_stack = false ∧ r.2.flag_agrees = true) :=
  ⟨rfl, rfl,
    (C7_constructed_copy_keeps_mode demo_owned.1 demo_owned.2).2.2.1 _ rfl,
    (C7_constructed_copy_keeps_mode demo_owned.1 demo_owned.2).2.2.2 rfl,
    (C7_constructed_copy_keeps_mode demo_owned.1 demo_owned.2).1⟩

/-- C8: post-increment of a cursor `c` holding a live implementation object returns a
snapshot that holds the object `c` held before the call, hence dereferences to the element
`c` designated then, and compares equal to a copy of `c` made before the call. It leaves `c`
exactly as `operator++` alone leaves it, holding the object advanced once. The snapshot
does not share the advanced object: it still holds the old one after the advance. -/
theorem C8_post_increment (ops : CursorOps S) (h : Heap S) (c : iterator S)
    (It : ItType S.Kind) (d : S.DataOf It)
    (hc : c.get_concept h = .ok (.it_model It d))
    (hrefl : ops.eq_data It d d = true) :
    ∃ h2 c2 snap hi, iterator.operator_post_inc ops h c = .ok (h2, c2, snap) ∧
      iterator.operator_inc ops h c = .ok (hi, c2) ∧
      c2.get_concept h2 = c2.get_concept hi ∧
      c2.get_concept h2 = .ok (.it_model It (ops.incr_data It d)) ∧
      snap.get_concept h2 = .ok (.it_model It d) ∧
      iterator.operator_star ops h2 snap = iterator.operator_star ops h c ∧
      iterator.operator_star ops h2 snap = .ok (ops.deref_data It d) ∧
      (∃ h1, iterator.copy_ctor h c = .ok (h1, snap) ∧
        iterator.operator_eq ops h1 snap c = .ok true) := by
  obtain ⟨h2, c2, snap, hi, hpost, hinc, _, _, hg2, hgi, hsnap, h1, hcopy, hsnap1⟩ :=
    iterator.operator_post_inc_spec ops h c _ hc
  obtain ⟨h1b, k, hcopyb, _, _, _, _, _, hkeep⟩ := iterator.copy_ctor_spec h c _ hc
  rw [hcopy] at hcopyb
  cases hcopyb
  refine ⟨h2, c2, snap, hi, hpost, hinc, by rw [hg2, hgi], hg2, hsnap, ?_,
    iterator.star_of_get_concept ops h2 snap It d hsnap, h1, hcopy, ?_⟩
  · rw [iterator.star_of_get_concept ops h2 snap It d hsnap,
      iterator.star_of_get_concept ops h c It d hc]
  · rw [iterator.eq_of_get_concept ops h1 snap c It d d hsnap1 (hkeep c _ hc), hrefl]

/-- C8 at the owned cursor `demo_owned`. -/
theorem C8_post_increment_witness :
    demo_owned.2.get_concept demo_owned.1
      = .ok (.it_model (.class_type .strided) ((100 : Nat), (2 : Nat))) ∧
    demo_ops.eq_data (.class_type .strided) ((100 : Nat), (2 : Nat)) ((100 : Nat), (2 : Nat))
      = true ∧
    ∃ h2 c2 snap, iterator.operator_post_inc demo_ops demo_owned.1 demo_owned.2
        = .ok (h2, c2, snap) ∧
      c2.get_concept h2 = .ok (.it_model (.class_type .strided)
        (demo_ops.incr_data (.class_type .strided) ((100 : Nat), (2 : Nat)))) ∧
      iterator.operator_star demo_ops h2 snap = .ok 100 :=
  ⟨rfl, rfl,
    let ⟨h2, c2, snap, _, hp, _, _, hg, _, _, hs, _⟩ :=
      C8_post_increment demo_ops demo_owned.1 demo_owned.2
        (.class_type .strided) ((100 : Nat), (2 : Nat)) rfl rfl
    ⟨h2, c2, snap, hp, hg, hs⟩⟩

/-- A cursor whose allocation, if any, was made after `h` is separate from every cursor
holding an object in `h`. -/
theorem iterator.separate_of_fresh (h : Heap S) (k c : iterator S) (o : it_concept S)
    (hfresh : ∀ p, k.storage = ._heap (some p) → h.cells.length ≤ p)
    (hc : c.get_concept h = .ok o) : k.separate c ∧ c.separate k := by
  have hsep : k.separate c := by
    intro p hp hcp
    have hle := hfresh p hp
    rcases (iterator.get_concept_ok_iff h _ _).1 hc with ⟨_, hs⟩ | ⟨_, q, hs, hl⟩
    · rw [hs] at hcp; cases hcp
    · rw [hs] at hcp
      cases hcp
      exact absurd (Heap.load_lt h _ _ hl) (not_lt.mpr hle)
  exact ⟨hsep, fun p hp hkp => hsep p hkp hp⟩

/-- The constructor from a concrete cursor: the new cursor holds `it_model<It>(iter)` in
storage of its own, and everything that was held before is still held. -/
theorem iterator.ctor_spec (ops : CursorOps S) (h : Heap S) (It : ItType S.Kind)
    (iter : S.DataOf It) :
    (iterator.ctor ops h It iter).2.get_concept (iterator.ctor ops h It iter).1
      = .ok (.it_model It iter) ∧
    (∀ p, (iterator.ctor ops h It iter).2.storage = ._heap (some p) → h.cells.length ≤ p) ∧
    (∀ (b : iterator S) (o : it_concept S), b.get_concept h = .ok o →
      b.get_concept (iterator.ctor ops h It iter).1 = .ok o) := by
  by_cases hg : goes_to_stack ops (ops.sizeof_model It) = true
  · simp only [iterator.ctor, hg, if_true]
    exact ⟨rfl, (fun p hp => by cases hp), fun b o hb => hb⟩
  · simp only [iterator.ctor, hg, Bool.false_eq_true, if_false]
    refine ⟨?_, ?_, ?_⟩
    · simp [iterator.get_concept, iterator.heap_concept, Heap.load_make_unique_new, bind,
        Except.bind, pure, Except.pure]
    · intro p hp
      cases hp
      exact Nat.le_refl _
    · intro b o hb
      rcases (iterator.get_concept_ok_iff h _ _).1 hb with ⟨hf, hs⟩ | ⟨hf, q, hs, hq⟩
      · exact (iterator.get_concept_ok_iff _ _ _).2 (Or.inl ⟨hf, hs⟩)
      · exact (iterator.get_concept_ok_iff _ _ _).2
          (Or.inr ⟨hf, q, hs, Heap.load_make_unique_old h _ o q hq⟩)

theorem iterator.ne_of_get_concept (ops : CursorOps S) (h : Heap S) (a b : iterator S)
    (It : ItType S.Kind) (d e : S.DataOf It) (ha : a.get_concept h = .ok (.it_model It d))
    (hb : b.get_concept h = .ok (.it_model It e)) :
    iterator.operator_ne ops h a b = .ok (!ops.eq_data It d e) := by
  simp [iterator.operator_ne, iterator.eq_of_get_concept ops h a b It d e ha hb, bind,
    Except.bind, pure, Except.pure]

/-- The loop over raw pointers: from `cur` at address `p`, with `last` at `p + n`, it needs
more than `n` tests of its condition, visits `p, ..., p + n - 1` and exits with `cur`
at `p + n`, where it compares equal to `last`. -/
theorem range_loop_pointers (ops : CursorOps S) (n : Nat) :
    ∀ (fuel : Nat) (h : Heap S) (cur last : iterator S) (p : Nat) (seen : List Loc),
      cur.get_concept h = .ok (.it_model .pointer p) →
      last.get_concept h = .ok (.it_model .pointer (p + n : Nat)) →
      cur.separate last →
      (fuel ≤ n → range_loop ops fuel h cur last seen = none) ∧
      (n < fuel → ∃ hf cf, range_loop ops fuel h cur last seen
          = some (.ok (hf, cf, seen ++ List.range' p n)) ∧
        cf.get_concept hf = .ok (.it_model .pointer (p + n : Nat)) ∧
        last.get_concept hf = .ok (.it_model .pointer (p + n : Nat)) ∧
        iterator.operator_eq ops hf cf last = .ok true) := by
  induction n with
  | zero =>
    intro fuel h cur last p seen hcur hlast _
    refine ⟨?_, ?_⟩
    · intro hf
      have : fuel = 0 := Nat.le_zero.mp hf
      subst this
      rfl
    · intro hf
      obtain ⟨f, rfl⟩ : ∃ f, fuel = f + 1 := ⟨fuel - 1, by omega⟩
      have hne := iterator.ne_of_get_concept ops h cur last .pointer p (p + 0 : Nat) hcur hlast
      have heq := iterator.eq_of_get_concept ops h cur last .pointer p (p + 0 : Nat) hcur hlast
      simp [CursorOps.eq_data] at hne heq
      refine ⟨h, cur, ?_, hcur, hlast, heq⟩
      simp [range_loop, hne]
  | succ n ih =>
    intro fuel h cur last p seen hcur hlast hsep
    have hne := iterator.ne_of_get_concept ops h cur last .pointer p (p + (n + 1) : Nat)
      hcur hlast
    simp [CursorOps.eq_data] at hne
    have hstar := iterator.star_of_get_concept ops h cur .pointer p hcur
    obtain ⟨h1, c1, hinc, _, hget, hst, _, _, hframe⟩ :=
      iterator.operator_inc_spec ops h cur _ hcur
    have hlast1 := hframe last _ hsep hlast
    have hsep1 : c1.separate last := fun q hq => hsep q ((hst q).1 hq)
    have hget1 : c1.get_concept h1 = .ok (.it_model .pointer (p + 1 : Nat)) := hget
    have hlast1b : last.get_concept h1 = .ok (.it_model .pointer (p + 1 + n : Nat)) := by
      rw [hlast1]
      have : p + (n + 1) = p + 1 + n := by omega
      rw [this]
    cases fuel with
    | zero => exact ⟨fun _ => rfl, fun hf => absurd hf (Nat.not_lt_zero _)⟩
    | succ f =>
      obtain ⟨ihn, ihs⟩ := ih f h1 c1 last (p + 1) (seen ++ [p]) hget1 hlast1b hsep1
      have hstep : range_loop ops (f + 1) h cur last seen
          = range_loop ops f h1 c1 last (seen ++ [p]) := by
        simp [range_loop, hne, hstar, hinc, CursorOps.deref_data]
      refine ⟨fun hf => ?_, fun hf => ?_⟩
      · rw [hstep]
        exact ihn (by omega)
      · obtain ⟨hf2, cf, hres, hcf, hlf, heq⟩ := ihs (by omega)
        have e1 : p + (n + 1) = p + 1 + n := by omega
        refine ⟨hf2, cf, ?_, by rw [e1]; exact hcf, by rw [e1]; exact hlf, heq⟩
        rw [hstep, hres, List.range'_succ]
        simp


theorem array_at_map_range {T : Type} (m : Mem T) (base : Loc) (arr : List T)
    (hm : array_at m base arr) : (List.range' base arr.length).map m = arr := by
  apply List.ext_getElem
  · simp
  · intro i h1 h2
    have hi : i < arr.length := h2
    have := hm i hi
    simp [List.getElem_range'] at this ⊢
    exact this

theorem CursorOps.incr_pointer_iterate (ops : CursorOps S) (k : Nat) (p : Nat) :
    (ops.incr_data .pointer)^[k] p = (p + k : Nat) := by
  induction k generalizing p with
  | zero => rfl
  | succ k ih =>
    rw [Function.iterate_succ_apply]
    have : ops.incr_data .pointer p = (p + 1 : Nat) := rfl
    rw [this, ih]
    exact (by omega : (p + 1 + k : Nat) = p + (k + 1))

/-- C9: let the array `arr` occupy the addresses from `base` on. A cursor built from the
pointer `base` dereferences, after `k` advances with `k` less than the length, to the
address `base + k`, which holds element `k` (the first element for `k = 0`). Iterating the
view built from the pointers `base` and `base + length` visits exactly the elements of
`arr` in order; the loop body runs once per element: the loop ends at the test number
`length + 1` and at no earlier one, with the cursor comparing equal to `end()`. -/
theorem C9_array_cursor_and_view {T : Type} (ops : CursorOps S) (h : Heap S) (m : Mem T)
    (base : Loc) (arr : List T) (hm : array_at m base arr) :
    (∀ k (hk : k < arr.length), ∃ h1 c1,
      iterator.advance ops k (iterator.ctor ops h .pointer base).1
        (iterator.ctor ops h .pointer base).2 = .ok (h1, c1) ∧
      iterator.operator_star ops h1 c1 = .ok (base + k) ∧
      m (base + k) = arr.get ⟨k, hk⟩) ∧
    (∀ fuel, arr.length < fuel → ∃ hf cf,
      iterate ops fuel (iterable_view.ctor ops h .pointer base (base + arr.length : Nat)).1
        (iterable_view.ctor ops h .pointer base (base + arr.length : Nat)).2
        = some (.ok (hf, cf, List.range' base arr.length)) ∧
      iterator.operator_eq ops hf cf
        (iterable_view.ctor ops h .pointer base (base + arr.length : Nat)).2.end_ = .ok true) ∧
    (List.range' base arr.length).map m = arr ∧
    (∀ fuel, fuel ≤ arr.length →
      iterate ops fuel (iterable_view.ctor ops h .pointer base (base + arr.length : Nat)).1
        (iterable_view.ctor ops h .pointer base (base + arr.length : Nat)).2 = none) := by
  refine ⟨?_, ?_, array_at_map_range m base arr hm, ?_⟩
  · intro k hk
    obtain ⟨hc, _, _⟩ := iterator.ctor_spec ops h .pointer base
    obtain ⟨h1, c1, hadv, _, hget, _⟩ := iterator.advance_spec ops k _ _ _ hc
    rw [it_concept.incr_iterate, CursorOps.incr_pointer_iterate] at hget
    exact ⟨h1, c1, hadv, iterator.star_of_get_concept ops h1 c1 .pointer _ hget, hm k hk⟩
  all_goals
    obtain ⟨ha, _, _⟩ := iterator.ctor_spec ops h .pointer base
    obtain ⟨hb, _, hkeepb⟩ := iterator.ctor_spec ops (iterator.ctor ops h .pointer base).1
      .pointer (base + arr.length : Nat)
    have ha2 := hkeepb _ _ ha
    obtain ⟨h3, cur, hcopy, _, hcur, hfresh, _, _, hkeep⟩ :=
      iterator.copy_ctor_spec _ _ _ ha2
    have hb3 := hkeep _ _ hb
    obtain ⟨hsep, _⟩ := iterator.separate_of_fresh _ cur _ _ hfresh hb
  · intro fuel hfuel
    obtain ⟨_, hsome⟩ := range_loop_pointers ops arr.length fuel h3 cur _ base [] hcur hb3 hsep
    obtain ⟨hf, cf, hres, _, _, heq⟩ := hsome hfuel
    refine ⟨hf, cf, ?_, heq⟩
    simp only [iterate, iterable_view.begin, iterable_view.end_, iterable_view.ctor]
    rw [hcopy]
    simpa using hres
  · intro fuel hfuel
    obtain ⟨hnone, _⟩ := range_loop_pointers ops arr.length fuel h3 cur _ base [] hcur hb3 hsep
    simp only [iterate, iterable_view.begin, iterable_view.end_, iterable_view.ctor]
    rw [hcopy]
    exact hnone hfuel

theorem demo_array_at : array_at demo_mem 100 [10, 20, 30] := by
  intro i hi
  match i, hi with
  | 0, _ => rfl
  | 1, _ => rfl
  | 2, _ => rfl
  | n + 3, hn => exact absurd hn (by simp)

/-- C9 at the array `[10, 20, 30]` placed at address `100`. -/
theorem C9_array_cursor_and_view_witness :
    array_at demo_mem 100 [10, 20, 30] ∧
    (∃ h1 c1, iterator.advance demo_ops 1 (iterator.ctor demo_ops demo_heap .pointer (100 : Nat)).1
        (iterator.ctor demo_ops demo_heap .pointer (100 : Nat)).2 = .ok (h1, c1) ∧
      iterator.operator_star demo_ops h1 c1 = .ok 101 ∧ demo_mem 101 = 20) ∧
    (∃ hf cf,
      iterate demo_ops 4
        (iterable_view.ctor demo_ops demo_heap .pointer (100 : Nat) (103 : Nat)).1
        (iterable_view.ctor demo_ops demo_heap .pointer (100 : Nat) (103 : Nat)).2
        = some (.ok (hf, cf, [100, 101, 102])) ∧
      iterator.operator_eq demo_ops hf cf
        (iterable_view.ctor demo_ops demo_heap .pointer (100 : Nat) (103 : Nat)).2.end_
        = .ok true) ∧
    [100, 101, 102].map demo_mem = [10, 20, 30] :=
  ⟨demo_array_at,
    (C9_array_cursor_and_view demo_ops demo_heap demo_mem 100 [10, 20, 30] demo_array_at).1
      1 (by decide),
    (C9_array_cursor_and_view demo_ops demo_heap demo_mem 100 [10, 20, 30] demo_array_at).2.1
      4 (by decide),
    (C9_array_cursor_and_view demo_ops demo_heap demo_mem 100 [10, 20, 30] demo_array_at).2.2.1⟩





/-- C10: for a location bound directly to the object at `x`: `get()` returns a reference to
that very object; after `assign(v)` the object at `x` holds `v`, `get()` yields `v`, and no
other object has changed; after any write of `w` to `x` that bypasses the location, `get()`
yields `w`, and so does a reference obtained from `get()` before the write. -/
theorem C10_direct_binding_reads_and_writes_object {T P : Type} (px : ProxyOps T P) (m : Mem T) (x : Loc)
    (v w : T) :
    ((any_reference.ctor_ref x : any_reference T P).get px).2 = .object x ∧
    (((any_reference.ctor_ref x : any_reference T P).operator_assign px m v).2.get px).2
      = .object x ∧
    ((any_reference.ctor_ref x : any_reference T P).operator_assign px m v).2.get_value px
      ((any_reference.ctor_ref x : any_reference T P).operator_assign px m v).1 = some v ∧
    ((any_reference.ctor_ref x : any_reference T P).operator_assign px m v).1 x = v ∧
    (∀ y, y ≠ x →
      ((any_reference.ctor_ref x : any_reference T P).operator_assign px m v).1 y = m y) ∧
    (any_reference.ctor_ref x : any_reference T P).get_value px (Function.update m x w)
      = some w ∧
    any_reference.read (Function.update m x w)
      ((any_reference.ctor_ref x : any_reference T P).get px).1
      ((any_reference.ctor_ref x : any_reference T P).get px).2 = some w := by
  refine ⟨rfl, rfl, ?_, ?_, ?_, ?_, ?_⟩
  · simp [any_reference.ctor_ref, any_reference.operator_assign, any_reference.get_value,
      any_reference.get, any_reference.read, ref_concept.set, ref_concept.get]
  · simp [any_reference.ctor_ref, any_reference.operator_assign, ref_concept.set]
  · intro y hy
    simp [any_reference.ctor_ref, any_reference.operator_assign, ref_concept.set,
      Function.update_noteq hy]
  · simp [any_reference.ctor_ref, any_reference.get_value, any_reference.get,
      any_reference.read, ref_concept.get]
  · simp [any_reference.ctor_ref, any_reference.get, any_reference.read, ref_concept.get]

/-- C11: for a proxy-backed location owning the proxy `p`, whatever its working slot
`slot` holds: `get()` returns a reference to the working slot, which then holds `T(p)`;
the proxy object is still `p` after the call; a second `get()` right after the first
returns `T(p)` again. A location freshly built from `p` is such a location. -/
theorem C11_proxy_get_recomputes {T P : Type} (px : ProxyOps T P) (m : Mem T) (p : P)
    (slot : Option T) :
    (any_reference.get px ⟨.ref_proxy p slot⟩).2 = .working_slot ∧
    (any_reference.get px ⟨.ref_proxy p slot⟩).1 = ⟨.ref_proxy p (some (px.to_value p))⟩ ∧
    any_reference.get_value px m ⟨.ref_proxy p slot⟩ = some (px.to_value p) ∧
    any_reference.get_value px m (any_reference.get px ⟨.ref_proxy p slot⟩).1
      = some (px.to_value p) ∧
    (any_reference.get px (any_reference.get px ⟨.ref_proxy p slot⟩).1).1
      = ⟨.ref_proxy p (some (px.to_value p))⟩ ∧
    (any_reference.ctor_proxy p : any_reference T P) = ⟨.ref_proxy p none⟩ := by
  refine ⟨rfl, rfl, rfl, rfl, rfl, rfl⟩

/-- C12: for a proxy-backed location owning the proxy `p` with working slot `slot`,
`assign(v)` replaces the proxy by what `p = v` makes of it, leaves the working slot and
memory as they were, and the next `get()` returns the conversion of the new proxy. For the
doubling proxy started at `5`: `get()` yields `10`; `assign(7)` stores `7`; `get()`
then yields `14`. -/
theorem C12_proxy_assign_overwrites_proxy {T P : Type} (px : ProxyOps T P) (m : Mem T) (p : P)
    (slot : Option T) (v : T) :
    (any_reference.operator_assign px m ⟨.ref_proxy p slot⟩ v).2
      = ⟨.ref_proxy (px.assign p v) slot⟩ ∧
    (any_reference.operator_assign px m ⟨.ref_proxy p slot⟩ v).1 = m ∧
    any_reference.get_value px (any_reference.operator_assign px m ⟨.ref_proxy p slot⟩ v).1
      (any_reference.operator_assign px m ⟨.ref_proxy p slot⟩ v).2
      = some (px.to_value (px.assign p v)) ∧
    (any_reference.ctor_proxy (5 : Nat) : any_reference Nat Nat).get_value demo_proxy demo_mem
      = some 10 ∧
    ((any_reference.ctor_proxy (5 : Nat) : any_reference Nat Nat).operator_assign
      demo_proxy demo_mem 7).2 = ⟨.ref_proxy 7 none⟩ ∧
    ((any_reference.ctor_proxy (5 : Nat) : any_reference Nat Nat).operator_assign
      demo_proxy demo_mem 7).2.get_value demo_proxy demo_mem = some 14 := by
  refine ⟨rfl, rfl, rfl, rfl, rfl, rfl⟩

/-- C13 as stated fails: after a `get()` on the location built from the doubling proxy `5`
the working slot holds `10`, and `clone()` of that implementation object has `10` in its
working slot, not an empty slot. -/
theorem C13_counterexample_clone_keeps_slot :
    ((any_reference.ctor_proxy (5 : Nat) : any_reference Nat Nat).get demo_proxy).1._self
      = .ref_proxy 5 (some 10) ∧
    ((any_reference.ctor_proxy (5 : Nat) : any_reference Nat Nat).get demo_proxy).1._self.clone
      = .ref_proxy 5 (some 10) ∧
    ((any_reference.ctor_proxy (5 : Nat) : any_reference Nat Nat).get demo_proxy).1._self.clone
      ≠ .ref_proxy 5 none := by
  refine ⟨rfl, rfl, ?_⟩
  intro h
  cases h

/-- C13, amended: `clone()` of a proxy-backed implementation object owns a duplicate of the
proxy and a copy of the working slot. The slot of the clone is empty exactly when the slot
of the original is: it is empty for an object on which `get()` has not been called, and
holds the materialized value after a `get()`. In either case `get()` on the clone returns
the conversion of the proxy, as on the original. -/
theorem C13_clone_copies_proxy_and_slot {T P : Type} (px : ProxyOps T P) (p : P)
    (slot : Option T) :
    (ref_concept.ref_proxy p slot : ref_concept T P).clone = .ref_proxy p slot ∧
    ((ref_concept.ref_proxy p slot : ref_concept T P).clone = .ref_proxy p none ↔
      slot = none) ∧
    (any_reference.ctor_proxy p : any_reference T P)._self.clone = .ref_proxy p none ∧
    ((ref_concept.ref_proxy p slot : ref_concept T P).get px).1.clone
      = .ref_proxy p (some (px.to_value p)) ∧
    ((ref_concept.ref_proxy p slot : ref_concept T P).clone.get px)
      = ((ref_concept.ref_proxy p slot : ref_concept T P).get px) := by
  refine ⟨rfl, ?_, rfl, rfl, rfl⟩
  constructor
  · intro h
    simp only [ref_concept.clone] at h
    injection h
  · intro h
    subst h
    rfl

/-- C14: the owned cursor `demo_owned` is moved from and left with a null `_heap`. Copy
construction from it, copy assignment from it, `==` and `!=` with it on either side, and
`operator++` on it each dereference the null pointer: undefined behaviour. On the sentinel
an inline cursor is left with, the same operations complete, and advancing it leaves the
sentinel. -/
theorem C14_owned_moved_from_operations_undefined :
    iterator.move_ctor demo_owned.2
      = .ok (⟨false, ._heap (some 0)⟩, ⟨false, ._heap none⟩) ∧
    iterator.copy_ctor demo_owned.1 (⟨false, ._heap none⟩ : iterator Demo)
      = .error .undefined_behaviour ∧
    iterator.copy_assign demo_owned.1 demo_inline ⟨false, ._heap none⟩
      = .error .undefined_behaviour ∧
    iterator.operator_eq demo_ops demo_owned.1 ⟨false, ._heap none⟩ demo_inline
      = .error .undefined_behaviour ∧
    iterator.operator_eq demo_ops demo_owned.1 demo_inline ⟨false, ._heap none⟩
      = .error .undefined_behaviour ∧
    iterator.operator_ne demo_ops demo_owned.1 ⟨false, ._heap none⟩ ⟨false, ._heap none⟩
      = .error .undefined_behaviour ∧
    iterator.operator_inc demo_ops demo_owned.1 ⟨false, ._heap none⟩
      = .error .undefined_behaviour ∧
    iterator.move_ctor demo_inline
      = .ok (demo_inline, ⟨true, ._stack .empty_model⟩) ∧
    iterator.copy_ctor demo_heap (⟨true, ._stack .empty_model⟩ : iterator Demo)
      = .ok (demo_heap, ⟨true, ._stack .empty_model⟩) ∧
    iterator.copy_assign demo_owned.1 demo_owned.2 ⟨true, ._stack .empty_model⟩
      = .ok (⟨[none]⟩, ⟨true, ._stack .empty_model⟩) ∧
    iterator.operator_eq demo_ops demo_heap ⟨true, ._stack .empty_model⟩ demo_inline
      = .ok false ∧
    iterator.operator_ne demo_ops demo_heap demo_inline ⟨true, ._stack .empty_model⟩
      = .ok true ∧
    iterator.operator_inc demo_ops demo_heap ⟨true, ._stack .empty_model⟩
      = .ok (demo_heap, ⟨true, ._stack .empty_model⟩) :=
  ⟨rfl, rfl, rfl, rfl, rfl, rfl, rfl, rfl, rfl, rfl, rfl, rfl, rfl⟩

theorem iterator.arrow_of_get_concept (ops : CursorOps S) (h : Heap S) (c : iterator S)
    (obj : it_concept S) (hc : c.get_concept h = .ok obj) :
    iterator.operator_arrow ops h c = obj.arrow ops := by
  simp [iterator.operator_arrow, hc, bind, Except.bind]

/-- C15: for a cursor holding a live implementation object whose concrete cursor obeys the
requirement that its own `operator->`, if declared, returns the address of `*data`,
`operator->` returns the address `operator*` designates. Case by case: for a raw pointer
it returns the pointer; for a class declaring `operator->` it returns what that operator
returns; for any other class it returns the address of `*data`. -/
theorem C15_arrow_is_address_of_star (ops : CursorOps S) (h : Heap S) (c : iterator S)
    (It : ItType S.Kind) (d : S.DataOf It)
    (hc : c.get_concept h = .ok (.it_model It d))
    (hlaw : ops.arrow_agrees It d) :
    iterator.operator_arrow ops h c = iterator.operator_star ops h c ∧
    iterator.operator_arrow ops h c = .ok (ops.deref_data It d) ∧
    (∀ p : Nat, it_concept.arrow ops (.it_model .pointer p) = .ok p ∧
      it_concept.star ops (.it_model .pointer p) = .ok p) ∧
    (∀ (k : S.Kind) (e : S.Data k) (f : S.Data k → Loc), ops.arrow k = some f →
      it_concept.arrow ops (.it_model (.class_type k) e) = .ok (f e)) ∧
    (∀ (k : S.Kind) (e : S.Data k), ops.arrow k = none →
      it_concept.arrow ops (.it_model (.class_type k) e) = .ok (ops.star k e) ∧
      it_concept.star ops (.it_model (.class_type k) e) = .ok (ops.star k e)) := by
  have harrow : iterator.operator_arrow ops h c = .ok (ops.deref_data It d) := by
    rw [iterator.arrow_of_get_concept ops h c _ hc]
    cases It with
    | pointer => rfl
    | class_type k =>
      cases hf : ops.arrow k with
      | none => simp [it_concept.arrow, hf, CursorOps.deref_data, pure, Except.pure]
      | some f =>
        have := hlaw f hf
        simp [it_concept.arrow, hf, CursorOps.deref_data, pure, Except.pure, this]
  refine ⟨?_, harrow, fun p => ⟨rfl, rfl⟩, ?_, ?_⟩
  · rw [harrow, iterator.star_of_get_concept ops h c It d hc]
  · intro k e f hf
    simp [it_concept.arrow, hf, pure, Except.pure]
  · intro k e hf
    exact ⟨by simp [it_concept.arrow, hf, pure, Except.pure], rfl⟩

/-- C15 at the inline cursor `demo_wrapped`, whose class declares `operator->`. -/
theorem C15_arrow_is_address_of_star_witness :
    demo_wrapped.get_concept demo_heap = .ok (.it_model (.class_type .wrapped) (100 : Nat)) ∧
    demo_ops.arrow_agrees (.class_type .wrapped) (100 : Nat) ∧
    iterator.operator_arrow demo_ops demo_heap demo_wrapped
      = iterator.operator_star demo_ops demo_heap demo_wrapped ∧
    iterator.operator_arrow demo_ops demo_heap demo_wrapped = .ok 100 :=
  ⟨rfl, (fun f hf => by cases hf; rfl),
    (C15_arrow_is_address_of_star demo_ops demo_heap demo_wrapped (.class_type .wrapped)
      (100 : Nat) rfl (fun f hf => by cases hf; rfl)).1,
    (C15_arrow_is_address_of_star demo_ops demo_heap demo_wrapped (.class_type .wrapped)
      (100 : Nat) rfl (fun f hf => by cases hf; rfl)).2.1⟩

theorem Heap.live_count_make_unique (h : Heap S) (x : it_concept S) :
    (h.make_unique x).1.live_count = h.live_count + 1 := by
  simp [Heap.make_unique, Heap.live_count, List.filter_append]

theorem Heap.load_make_unique_lt (h : Heap S) (x : it_concept S) (p : Addr)
    (hp : p < h.cells.length) : (h.make_unique x).1.load p = h.load p := by
  simp [Heap.make_unique, Heap.load, List.getElem?_append_left hp]

theorem List.live_set_none {α : Type} (l : List (Option α)) (p : Nat) (a : α)
    (hp : l[p]? = some (some a)) :
    ((l.set p none).filter Option.isSome).length + 1 = (l.filter Option.isSome).length := by
  induction l generalizing p with
  | nil => simp at hp
  | cons x xs ih =>
    cases p with
    | zero =>
      simp at hp
      subst hp
      simp
    | succ n =>
      simp at hp
      have := ih n hp
      cases x with
      | none => simpa using this
      | some y =>
        simp [List.filter_cons]
        omega

theorem Heap.live_count_delete (h : Heap S) (p : Addr) (o : it_concept S)
    (hp : h.load p = some o) :
    (Heap.mk (h.cells.set p none)).live_count + 1 = h.live_count := by
  have hlt := Heap.load_lt h o p hp
  have hget : h.cells[p]? = some (some o) := by
    simp only [Heap.load] at hp
    cases hc : h.cells[p]? with
    | none => simp [hc] at hp
    | some v =>
      cases v with
      | none => simp [hc] at hp
      | some w =>
        simp [hc] at hp
        rw [hp]
  exact List.live_set_none h.cells p o hget

/-- C16: the cursor built from a concrete cursor of type `It` is inline exactly when
`sizeof(it_model<It>)` is at most the size of the inline buffer, and owned exactly when it
is larger; its flag names the member that was initialised. An inline construction leaves
the free store as it was, with the object in the buffer; an owned construction makes
exactly one allocation, which holds the object, and leaves every earlier one as it was. -/
theorem C16_storage_mode_by_size (ops : CursorOps S) (h : Heap S) (It : ItType S.Kind)
    (iter : S.DataOf It) :
    ((iterator.ctor ops h It iter).2._on_stack = true ↔
      ops.sizeof_model It ≤ ops.sizeof_aligned_storage) ∧
    ((iterator.ctor ops h It iter).2._on_stack = false ↔
      ops.sizeof_aligned_storage < ops.sizeof_model It) ∧
    (iterator.ctor ops h It iter).2.flag_agrees = true ∧
    (iterator.ctor ops h It iter).2.get_concept (iterator.ctor ops h It iter).1
      = .ok (.it_model It iter) ∧
    (ops.sizeof_model It ≤ ops.sizeof_aligned_storage →
      (iterator.ctor ops h It iter).1 = h ∧
      (iterator.ctor ops h It iter).2.storage = ._stack (.it_model It iter)) ∧
    (ops.sizeof_aligned_storage < ops.sizeof_model It →
      (iterator.ctor ops h It iter).1.allocations = h.allocations + 1 ∧
      (iterator.ctor ops h It iter).1.live_count = h.live_count + 1 ∧
      (iterator.ctor ops h It iter).2.storage = ._heap (some h.allocations) ∧
      (iterator.ctor ops h It iter).1.load h.allocations = some (.it_model It iter) ∧
      ∀ q, q < h.allocations → (iterator.ctor ops h It iter).1.load q = h.load q) := by
  by_cases hs : ops.sizeof_model It ≤ ops.sizeof_aligned_storage
  · have hg : goes_to_stack ops (ops.sizeof_model It) = true := by simp [goes_to_stack, hs]
    have hctor : iterator.ctor ops h It iter
        = (h, { _on_stack := true, storage := ._stack (.it_model It iter) }) := by
      simp [iterator.ctor, hg]
    rw [hctor]
    refine ⟨by simp [hs], by simp [hs], rfl, rfl, fun _ => ⟨rfl, rfl⟩, ?_⟩
    intro hlt
    omega
  · have hg : goes_to_stack ops (ops.sizeof_model It) = false := by simp [goes_to_stack, hs]
    have hlt : ops.sizeof_aligned_storage < ops.sizeof_model It := not_le.mp hs
    have hctor : iterator.ctor ops h It iter
        = ((h.make_unique (.it_model It iter)).1,
           { _on_stack := false,
             storage := ._heap (some (h.make_unique (.it_model It iter)).2) }) := by
      simp [iterator.ctor, hg]
    rw [hctor]
    refine ⟨by simp [hs], by simp [hlt], rfl, ?_, fun hle => absurd hle hs, fun _ => ?_⟩
    · simp [iterator.get_concept, iterator.heap_concept, Heap.load_make_unique_new, bind,
        Except.bind, pure, Except.pure]
    · refine ⟨?_, Heap.live_count_make_unique h _, rfl, Heap.load_make_unique_new h _, ?_⟩
      · simp [Heap.allocations, Heap.make_unique]
      · intro q hq
        exact Heap.load_make_unique_lt h _ q hq

/-- C16 at the sample sizes: the 16-byte pointer adapter is built inline without an
allocation, the 24-byte `strided` adapter is built owned with one allocation. -/
theorem C16_storage_mode_by_size_witness :
    (demo_ops.sizeof_model .pointer ≤ demo_ops.sizeof_aligned_storage) ∧
    (demo_ops.sizeof_aligned_storage < demo_ops.sizeof_model (.class_type .strided)) ∧
    (iterator.ctor demo_ops demo_heap .pointer (100 : Nat)).1 = demo_heap ∧
    (iterator.ctor demo_ops demo_heap (.class_type .strided)
      ((100 : Nat), (2 : Nat))).1.allocations = demo_heap.allocations + 1 :=
  ⟨by decide, by decide,
    ((C16_storage_mode_by_size demo_ops demo_heap .pointer (100 : Nat)).2.2.2.2.1
      (by decide)).1,
    ((C16_storage_mode_by_size demo_ops demo_heap (.class_type .strided)
      ((100 : Nat), (2 : Nat))).2.2.2.2.2 (by decide)).1⟩

theorem iterator.eq_sentinel (ops : CursorOps S) (h : Heap S) (a b : iterator S)
    (ha : a.get_concept h = .ok .empty_model) (obj : it_concept S)
    (hb : b.get_concept h = .ok obj) :
    iterator.operator_eq ops h a b = .ok (decide (obj.typeid = none)) ∧
    iterator.operator_eq ops h b a = .ok (decide (obj.typeid = none)) := by
  cases obj with
  | empty_model =>
    simp [iterator.operator_eq, ha, hb, bind, Except.bind, it_concept.operator_eq,
      it_concept.typeid, it_concept.equal, pure, Except.pure]
  | it_model It d =>
    simp [iterator.operator_eq, ha, hb, bind, Except.bind, it_concept.operator_eq,
      it_concept.typeid, pure, Except.pure]

theorem iterator.move_ctor_inline (c : iterator S) (obj : it_concept S)
    (hin : c._on_stack = true) (hs : c.storage = ._stack obj) :
    iterator.move_ctor c = .ok (⟨true, ._stack obj⟩, ⟨true, ._stack .empty_model⟩) := by
  obtain ⟨f, st⟩ := c
  simp only at hin hs
  subst hin hs
  simp [iterator.move_ctor, iterator.transfer_move, bind, Except.bind, pure, Except.pure]

/-- C17: a cursor `a` holding the sentinel compares equal (`==` true, `!=` false) to every
cursor holding the sentinel, and unequal (`==` false, `!=` true), on either side, to every
cursor holding a live implementation object. The sentinels left behind by moving from two
inline cursors compare equal whatever concrete types the two cursors held. -/
theorem C17_sentinel_equality (ops : CursorOps S) (h : Heap S) (a b : iterator S)
    (ha : a.get_concept h = .ok .empty_model) :
    (b.get_concept h = .ok .empty_model →
      iterator.operator_eq ops h a b = .ok true ∧
      iterator.operator_ne ops h a b = .ok false) ∧
    (∀ (It : ItType S.Kind) (d : S.DataOf It), b.get_concept h = .ok (.it_model It d) →
      iterator.operator_eq ops h a b = .ok false ∧
      iterator.operator_eq ops h b a = .ok false ∧
      iterator.operator_ne ops h a b = .ok true ∧
      iterator.operator_ne ops h b a = .ok true) ∧
    (∀ (c1 c2 : iterator S) (I1 I2 : ItType S.Kind) (d1 : S.DataOf I1) (d2 : S.DataOf I2),
      c1._on_stack = true → c2._on_stack = true →
      c1.get_concept h = .ok (.it_model I1 d1) → c2.get_concept h = .ok (.it_model I2 d2) →
      ∃ t1 t2 s1 s2, iterator.move_ctor c1 = .ok (t1, s1) ∧
        iterator.move_ctor c2 = .ok (t2, s2) ∧
        iterator.operator_eq ops h s1 s2 = .ok true) := by
  refine ⟨?_, ?_, ?_⟩
  · intro hb
    have he := (iterator.eq_sentinel ops h a b ha _ hb).1
    simp only [it_concept.typeid, decide_True] at he
    exact ⟨he, by simp [iterator.operator_ne, he, bind, Except.bind, pure, Except.pure]⟩
  · intro It d hb
    obtain ⟨h1, h2⟩ := iterator.eq_sentinel ops h a b ha _ hb
    simp [it_concept.typeid] at h1 h2
    exact ⟨h1, h2, by simp [iterator.operator_ne, h1, bind, Except.bind, pure, Except.pure],
      by simp [iterator.operator_ne, h2, bind, Except.bind, pure, Except.pure]⟩
  · intro c1 c2 I1 I2 d1 d2 hf1 hf2 hc1 hc2
    have hs1 : c1.storage = ._stack (.it_model I1 d1) := by
      rcases (iterator.get_concept_ok_iff h c1 _).1 hc1 with ⟨_, hs⟩ | ⟨hf, _⟩
      · exact hs
      · simp [hf1] at hf
    have hs2 : c2.storage = ._stack (.it_model I2 d2) := by
      rcases (iterator.get_concept_ok_iff h c2 _).1 hc2 with ⟨_, hs⟩ | ⟨hf, _⟩
      · exact hs
      · simp [hf2] at hf
    refine ⟨_, _, _, _, iterator.move_ctor_inline c1 _ hf1 hs1,
      iterator.move_ctor_inline c2 _ hf2 hs2, ?_⟩
    have he := (iterator.eq_sentinel ops h ⟨true, ._stack .empty_model⟩
      ⟨true, ._stack .empty_model⟩ rfl _ rfl).1
    simp only [it_concept.typeid, decide_True] at he
    exact he

/-- C17 at the sentinel left by moving from `demo_inline`, compared with itself and with
the live cursor `demo_wrapped`. -/
theorem C17_sentinel_equality_witness :
    (⟨true, ._stack .empty_model⟩ : iterator Demo).get_concept demo_heap = .ok .empty_model ∧
    demo_wrapped.get_concept demo_heap = .ok (.it_model (.class_type .wrapped) (100 : Nat)) ∧
    iterator.operator_eq demo_ops demo_heap ⟨true, ._stack .empty_model⟩
      ⟨true, ._stack .empty_model⟩ = .ok true ∧
    iterator.operator_eq demo_ops demo_heap ⟨true, ._stack .empty_model⟩ demo_wrapped
      = .ok false :=
  ⟨rfl, rfl,
    ((C17_sentinel_equality demo_ops demo_heap ⟨true, ._stack .empty_model⟩
      ⟨true, ._stack .empty_model⟩ rfl).1 rfl).1,
    ((C17_sentinel_equality demo_ops demo_heap ⟨true, ._stack .empty_model⟩
      demo_wrapped rfl).2.1 _ _ rfl).1⟩

/-- Destroying a cursor that holds an object: an owned cursor releases its allocation,
which is then no longer live, and the number of live allocations drops by one; an inline
cursor leaves the free store as it was. Cursors not sharing the allocation are unaffected. -/
theorem iterator.dtor_release (h : Heap S) (a : iterator S) (obj : it_concept S)
    (ha : a.get_concept h = .ok obj) :
    ∃ h1, iterator.dtor h a = .ok h1 ∧
      h1.cells.length = h.cells.length ∧
      h1.live_count + (if a._on_stack then 0 else 1) = h.live_count ∧
      (∀ p, a.storage = ._heap (some p) → h1.load p = none) ∧
      (∀ (b : iterator S) (o : it_concept S), a.separate b → b.get_concept h = .ok o →
        b.get_concept h1 = .ok o) := by
  obtain ⟨af, as⟩ := a
  rcases (iterator.get_concept_ok_iff h _ _).1 ha with ⟨hf, hs⟩ | ⟨hf, p, hs, hl⟩ <;>
    simp only at hf hs <;> subst hf hs
  · refine ⟨h, ?_, rfl, by simp, ?_, fun b o _ hb => hb⟩
    · simp [iterator.dtor, iterator.stack_concept, bind, Except.bind, pure, Except.pure]
    · intro p hp; cases hp
  · refine ⟨⟨h.cells.set p none⟩, ?_, by simp, ?_, ?_, ?_⟩
    · simp [iterator.dtor, Heap.delete_ok h obj p hl]
    · simpa using Heap.live_count_delete h p obj hl
    · intro q hq
      cases hq
      exact Heap.load_delete_same h p
    · intro b ob hsep hb
      rcases (iterator.get_concept_ok_iff h _ _).1 hb with ⟨hf, hs⟩ | ⟨hf, q, hs, hq⟩
      · exact (iterator.get_concept_ok_iff _ _ _).2 (Or.inl ⟨hf, hs⟩)
      · have hne : p ≠ q := by
          intro e
          subst e
          exact hsep p rfl hs
        exact (iterator.get_concept_ok_iff _ _ _).2
          (Or.inr ⟨hf, q, hs, by rw [Heap.load_delete_ne h p q hne]; exact hq⟩)

/-- C18: let the cursors at the distinct addresses `this` and `other` hold live
implementation objects in allocations of their own. After `*this = other` the target
holds a copy of the object of `other` (its concrete type and wrapped value), in the storage
mode of `other`; it compares equal to `other` and dereferences to the same element; `other`
is unchanged and still holds its object. The previous object of the target was destroyed
once: if it was owned its allocation is no longer live, and the count of live allocations
fell by one for it and rose by one exactly when the copy is owned. -/
theorem C18_copy_assign_between_distinct (ops : CursorOps S) (m : Machine S) (this other : Nat)
    (Ia Ib : ItType S.Kind) (da : S.DataOf Ia) (db : S.DataOf Ib)
    (hne : this ≠ other)
    (ha : (m.objs this).get_concept m.heap = .ok (.it_model Ia da))
    (hb : (m.objs other).get_concept m.heap = .ok (.it_model Ib db))
    (hsep : (m.objs this).separate (m.objs other))
    (hrefl : ops.eq_data Ib db db = true) :
    ∃ m1, m.operator_assign_copy this other = .ok m1 ∧
      iterator.operator_eq ops m1.heap (m1.objs this) (m1.objs other) = .ok true ∧
      iterator.operator_star ops m1.heap (m1.objs this)
        = iterator.operator_star ops m1.heap (m1.objs other) ∧
      iterator.operator_star ops m1.heap (m1.objs this) = .ok (ops.deref_data Ib db) ∧
      (m1.objs this)._on_stack = (m.objs other)._on_stack ∧
      (m1.objs this).get_concept m1.heap = .ok (.it_model Ib db) ∧
      m1.objs other = m.objs other ∧
      (m1.objs other).get_concept m1.heap = .ok (.it_model Ib db) ∧
      (m1.objs this).separate (m1.objs other) ∧
      (∀ p, (m.objs this).storage = ._heap (some p) → m1.heap.load p = none) ∧
      (∃ h1, iterator.dtor m.heap (m.objs this) = .ok h1 ∧
        h1.live_count + (if (m.objs this)._on_stack then 0 else 1) = m.heap.live_count ∧
        m1.heap.live_count = h1.live_count + (if (m.objs other)._on_stack then 0 else 1)) := by
  obtain ⟨h1, hd, hlen, hlive, hfreed, hframe⟩ := iterator.dtor_release m.heap _ _ ha
  have hb1 := hframe _ _ hsep hb
  obtain ⟨h2, k, hcopy, hflag, hk, hfresh, hst, hhp, hkeep⟩ :=
    iterator.copy_ctor_spec h1 (m.objs other) _ hb1
  have hb2 := hkeep _ _ hb1
  obtain ⟨hsepk, _⟩ := iterator.separate_of_fresh h1 k _ _ hfresh hb1
  have hassign : iterator.copy_assign m.heap (m.objs this) (m.objs other) = .ok (h2, k) := by
    rw [iterator.copy_assign_eq, hd]
    exact hcopy
  have hlive2 : h2.live_count
      = h1.live_count + (if (m.objs other)._on_stack then 0 else 1) := by
    cases hfo : (m.objs other)._on_stack with
    | true =>
      rw [(hst hfo).1]
      simp
    | false =>
      rw [(hhp hfo).1, Heap.live_count_make_unique]
      simp
  have hfreed2 : ∀ p, (m.objs this).storage = ._heap (some p) → h2.load p = none := by
    intro p hp
    have hp1 := hfreed p hp
    have hplt : p < h1.cells.length := by
      rw [hlen]
      rcases (iterator.get_concept_ok_iff m.heap _ _).1 ha with ⟨_, hs⟩ | ⟨_, q, hs, hl⟩
      · rw [hs] at hp; cases hp
      · rw [hs] at hp
        cases hp
        exact Heap.load_lt _ _ _ hl
    cases hfo : (m.objs other)._on_stack with
    | true =>
      rw [(hst hfo).1]
      exact hp1
    | false =>
      rw [(hhp hfo).1, Heap.load_make_unique_lt h1 _ p hplt]
      exact hp1
  refine ⟨{ heap := h2, objs := Function.update m.objs this k }, ?_, ?_⟩
  · simp [Machine.operator_assign_copy, hne, hassign, bind, Except.bind, pure, Except.pure]
  · have hother : Function.update m.objs this k other = m.objs other :=
      Function.update_noteq (Ne.symm hne) _ _
    have hthis : Function.update m.objs this k this = k := Function.update_same _ _ _
    simp only [hother, hthis]
    refine ⟨?_, ?_, iterator.star_of_get_concept ops h2 k Ib db hk, hflag, hk, trivial, hb2,
      hsepk, hfreed2, h1, hd, hlive, hlive2⟩
    · rw [iterator.eq_of_get_concept ops h2 k _ Ib db db hk hb2, hrefl]
    · rw [iterator.star_of_get_concept ops h2 k Ib db hk,
        iterator.star_of_get_concept ops h2 _ Ib db hb2]

/-- C18 at `demo_machine`, swapped: the inline cursor at 0 is assigned to the owned cursor
at 1, whose allocation is released. -/
theorem C18_copy_assign_between_distinct_witness :
    (1 : Nat) ≠ 0 ∧
    (demo_machine.objs 1).get_concept demo_machine.heap
      = .ok (.it_model (.class_type .strided) ((100 : Nat), (2 : Nat))) ∧
    (demo_machine.objs 0).get_concept demo_machine.heap
      = .ok (.it_model .pointer (100 : Nat)) ∧
    (demo_machine.objs 1).separate (demo_machine.objs 0) ∧
    demo_ops.eq_data .pointer (100 : Nat) (100 : Nat) = true ∧
    ∃ m1, demo_machine.operator_assign_copy 1 0 = .ok m1 ∧
      iterator.operator_eq demo_ops m1.heap (m1.objs 1) (m1.objs 0) = .ok true ∧
      (m1.objs 1)._on_stack = true ∧
      m1.heap.load 0 = none :=
  ⟨by decide, rfl, rfl, (fun p _ hq => by cases hq), rfl,
    let ⟨m1, hm, he, _, _, hf, _, _, _, _, hfree, _⟩ :=
      C18_copy_assign_between_distinct demo_ops demo_machine 1 0
        (.class_type .strided) .pointer ((100 : Nat), (2 : Nat)) (100 : Nat)
        (by decide) rfl rfl (fun p _ hq => by cases hq) rfl
    ⟨m1, hm, he, hf, hfree 0 rfl⟩⟩

/-- C19: copy-assigning or move-assigning the cursor at address `x` to itself returns with
the whole state unchanged, whatever state the cursor is in: same flag, same active
member, same free store, hence the same implementation object, and nothing is released or
replaced by the sentinel. The guard is what ensures it: the guarded block of the copy
assignment, run on the owned cursor `demo_owned` with itself as source, would read the
allocation it has just released. -/
theorem C19_self_assignment_is_noop (m : Machine S) (x : Nat) :
    m.operator_assign_copy x x = .ok m ∧
    m.operator_assign_move x x = .ok m ∧
    (∀ m1, m.operator_assign_copy x x = .ok m1 ∨ m.operator_assign_move x x = .ok m1 →
      m1.heap = m.heap ∧ m1.objs x = m.objs x ∧
      (m1.objs x)._on_stack = (m.objs x)._on_stack ∧
      (m1.objs x).get_concept m1.heap = (m.objs x).get_concept m.heap) ∧
    iterator.copy_assign demo_owned.1 demo_owned.2 demo_owned.2
      = .error .undefined_behaviour := by
  have h1 : m.operator_assign_copy x x = .ok m := by
    simp [Machine.operator_assign_copy, pure, Except.pure]
  have h2 : m.operator_assign_move x x = .ok m := by
    simp [Machine.operator_assign_move, pure, Except.pure]
  refine ⟨h1, h2, ?_, rfl⟩
  intro m1 hm
  have : m1 = m := by
    rcases hm with hm | hm
    · rw [h1] at hm; cases hm; rfl
    · rw [h2] at hm; cases hm; rfl
  subst this
  exact ⟨rfl, rfl, rfl, rfl⟩

/-- C19 at the owned cursor at address 1 of `demo_machine`. -/
theorem C19_self_assignment_is_noop_witness :
    demo_machine.operator_assign_copy 1 1 = .ok demo_machine ∧
    demo_machine.operator_assign_move 1 1 = .ok demo_machine ∧
    (demo_machine.objs 1).get_concept demo_machine.heap
      = .ok (.it_model (.class_type .strided) ((100 : Nat), (2 : Nat))) :=
  ⟨(C19_self_assignment_is_noop demo_machine 1).1,
    (C19_self_assignment_is_noop demo_machine 1).2.1, rfl⟩

end it
